import Mathlib

/-!
Verification development for the Dojo office-space allocation system.

The domain model (`Room`, `Person`, `Dojo`), the allocation engine
(`create_room`, `add_person`, `reallocate_person`) and the persistence
mapper (`to_db_room`, `to_db_person`, `service_load_state`) are shallow
embeddings of the corresponding Python classes and functions in
`src/models/room.py`, `src/models/office.py`, `src/models/living_space.py`,
`src/models/person.py`, `src/models/fellow.py`, `src/models/staff.py`,
`src/models/dojo.py`, `src/cli.py` and `src/models/db/{utils,service}.py`.

Modelling conventions:
- Python's dynamically typed allocation attributes (`office_allocated`,
  `living_space_allocated`) can hold `None`, a room-name string, or a
  boolean (the booleans are written by `DojoApp.reallocate_person`);
  they are modelled by the inductive `Alloc`.
- `random.choice(available)` is modelled by an explicit choice parameter
  `k : Nat` selecting `available[k % len(available)]`; every possible
  random outcome corresponds to some `k`.
- `str(uuid.uuid4())[:8]` fresh ids are modelled by an explicit `fresh`
  parameter; the freshness side conditions (`fresh` nonempty and unused)
  that hold for real uuids appear as hypotheses where they are needed.
- In-place mutation of a shared `Person` object is modelled by rewriting
  every list entry with that `person_id` (`updatePerson`); person ids are
  unique in every reachable state, so this coincides with Python's
  aliasing semantics.
- Uncaught Python exceptions are modelled by `PyOutcome.exn` paired with
  the state at the moment the exception escapes.
-/

/-- Python's `str.lower()` (ASCII case folding, per character).  Defined
on the character list so that it reduces inside the kernel. -/
def pyLower (s : String) : String := ⟨s.data.map Char.toLower⟩

/-- Python's `str.upper()`. -/
def pyUpper (s : String) : String := ⟨s.data.map Char.toUpper⟩

/-- `not name or not name.strip()`: the string is empty or whitespace-only. -/
def pyBlank (s : String) : Bool := s.data.all Char.isWhitespace

/-- Value of a person's `office_allocated` / `living_space_allocated`
attribute.  In the Python source these attributes hold `None`, a room-name
string (written by `Dojo._allocate_office` / `_allocate_living_space` and by
`to_domain_person`), or a boolean (written by `DojoApp.reallocate_person`).
`Alloc.nil` also stands for an attribute that was never created (Staff
objects are constructed without `living_space_allocated`). -/
inductive Alloc where
  | nil : Alloc
  | name (s : String) : Alloc
  | flag (b : Bool) : Alloc
deriving DecidableEq

/-- Python truthiness of an `Alloc` value (`if person.office_allocated:`). -/
def Alloc.truthy : Alloc → Bool
  | .nil => false
  | .name s => s != ""
  | .flag b => b

/-- `Room` from `src/models/room.py`: name, `room_type` discriminator,
fixed capacity and the occupant id list. -/
structure Room where
  name : String
  room_type : String
  capacity : Nat
  occupants : List String
deriving DecidableEq

/-- `Office.__init__` (`src/models/office.py`): `room_type = "office"`,
capacity 6, empty occupant list. -/
def Office (name : String) : Room := ⟨name, "office", 6, []⟩

/-- `LivingSpace.__init__` (`src/models/living_space.py`): capacity 4. -/
def LivingSpace (name : String) : Room := ⟨name, "living_space", 4, []⟩

/-- `Room.is_full`: `len(self.occupants) >= self.capacity`. -/
def Room.is_full (r : Room) : Bool := r.capacity ≤ r.occupants.length

/-- `Room.available_space`: `self.capacity - len(self.occupants)`. -/
def Room.available_space (r : Room) : Nat := r.capacity - r.occupants.length

/-- `Room.add_occupant` (`src/models/room.py` lines 25–45), for a string
argument: falsy (empty) id → `False`; already present → `True`; full →
`False`; otherwise append and return `True`. -/
def Room.add_occupant (r : Room) (person_id : String) : Bool × Room :=
  if person_id == "" then (false, r)
  else if r.occupants.contains person_id then (true, r)
  else if r.is_full then (false, r)
  else (true, { r with occupants := r.occupants ++ [person_id] })

/-- `Room.add_occupant` called with `None` or a string: `not person_id`
is true for `None` exactly as for `""`, and the function returns `False`
before touching `self.occupants`. -/
def Room.add_occupant_opt (r : Room) (person_id : Option String) : Bool × Room :=
  match person_id with
  | none => (false, r)
  | some s => r.add_occupant s

/-- `Room.remove_occupant` (`src/models/room.py` lines 47–64). -/
def Room.remove_occupant (r : Room) (person_id : String) : Bool × Room :=
  if person_id == "" || r.occupants.isEmpty then (false, r)
  else if r.occupants.contains person_id then
    (true, { r with occupants := r.occupants.erase person_id })
  else (false, r)

/-- `Person`/`Fellow`/`Staff` from `src/models/{person,fellow,staff}.py`.
`wants_accommodation` exists only on `Fellow`; every code path that reads
it is guarded by `person_type == 'FELLOW'`, so giving Staff the default
`false` is unobservable. -/
structure Person where
  name : String
  person_id : String
  person_type : String
  wants_accommodation : Bool
  office_allocated : Alloc
  living_space_allocated : Alloc
deriving DecidableEq

/-- `Fellow.__init__` with a string `wants_accommodation` argument
(`wants_accommodation.upper() == "Y"`); the fresh uuid is a parameter. -/
def mkFellow (name wa fresh : String) : Person :=
  ⟨name, fresh, "FELLOW", pyUpper wa == "Y", .nil, .nil⟩

/-- `Staff.__init__`; the fresh uuid is a parameter. -/
def mkStaff (name fresh : String) : Person :=
  ⟨name, fresh, "STAFF", false, .nil, .nil⟩

/-- The `Dojo` domain instance (`src/models/dojo.py`).  The Python object
also keeps `staff` and `fellows` lists, but they always alias the very
same `Person` objects held in `people` filtered by `person_type`
(`_add_person_to_lists` and `DatabaseService.load_state` keep them in
sync), so they are modelled as the derived views `Dojo.staffView` /
`Dojo.fellowsView`. -/
structure Dojo where
  offices : List Room
  living_spaces : List Room
  people : List Person
deriving DecidableEq

def emptyDojo : Dojo := ⟨[], [], []⟩

def Dojo.staffView (d : Dojo) : List Person :=
  d.people.filter (fun p => p.person_type == "STAFF")

def Dojo.fellowsView (d : Dojo) : List Person :=
  d.people.filter (fun p => p.person_type == "FELLOW")

/-- `any(room.name.lower() == name.lower() for room in offices + living_spaces)`. -/
def roomNameExists (d : Dojo) (name : String) : Bool :=
  (d.offices ++ d.living_spaces).any (fun r => pyLower r.name == pyLower name)

/-- The per-name loop body of `Dojo.create_room` (lines 57–78): skip blank
or whitespace-only names, skip case-insensitive duplicates against the
cumulative room set, otherwise append the concrete room. -/
def create_room_loop (room_type : String) : Dojo → List String → Bool → Bool × Dojo
  | d, [], created => (created, d)
  | d, n :: rest, created =>
    if n == "" || pyBlank n then create_room_loop room_type d rest created
    else if roomNameExists d n then create_room_loop room_type d rest created
    else
      let d' := if room_type == "office"
        then { d with offices := d.offices ++ [Office n] }
        else { d with living_spaces := d.living_spaces ++ [LivingSpace n] }
      create_room_loop room_type d' rest true

/-- `Dojo.create_room` (`src/models/dojo.py` lines 36–80) for a list of
names (the single-string case is wrapped into a one-element list by the
source itself). -/
def create_room (d : Dojo) (room_type : String) (room_names : List String) : Bool × Dojo :=
  if room_type == "office" || room_type == "living_space" then
    create_room_loop room_type d room_names false
  else (false, d)

/-- Indices of the non-full rooms, in order
(`[o for o in self.offices if not o.is_full()]` keeping positions). -/
def availableIdxs (rooms : List Room) : List Nat :=
  (List.range rooms.length).filter
    (fun i => !(rooms.getD i (Office "")).is_full)

/-- Default room used with `List.getD` at indices that are always in
range; its value is never observable. -/
def dRoom : Room := ⟨"", "", 0, []⟩

/-- `Dojo._allocate_office` (lines 132–151) acting on the office list and
the person object: pick `available[k % len]`, call `add_occupant`
(ignoring its result, as the source does) and record the office *name* on
the person. Returns the updated list and person; no available office is a
no-op returning `None` in the source. -/
def allocate_office (rooms : List Room) (p : Person) (k : Nat) : List Room × Person :=
  match availableIdxs rooms with
  | [] => (rooms, p)
  | a :: rest =>
    let idx := (a :: rest).getD (k % (a :: rest).length) 0
    let office := rooms.getD idx dRoom
    (rooms.set idx (office.add_occupant p.person_id).2,
     { p with office_allocated := .name office.name })

/-- `Dojo._allocate_living_space` (lines 153–172), same shape as
`_allocate_office` but recording `living_space_allocated`. -/
def allocate_living_space (rooms : List Room) (p : Person) (k : Nat) : List Room × Person :=
  match availableIdxs rooms with
  | [] => (rooms, p)
  | a :: rest =>
    let idx := (a :: rest).getD (k % (a :: rest).length) 0
    let ls := rooms.getD idx dRoom
    (rooms.set idx (ls.add_occupant p.person_id).2,
     { p with living_space_allocated := .name ls.name })

/-- Result of a Python call: a returned boolean, or an exception escaping
the call (paired, in `add_person`, with the state at that moment). -/
inductive PyOutcome where
  | ret (b : Bool) : PyOutcome
  | exn (msg : String) : PyOutcome
deriving DecidableEq

/-- `Dojo.add_person` (`src/models/dojo.py` lines 82–130).  Validation
failures return `False` before any mutation.  After the person is
registered and office allocation ran, the source computes
`name.split()[0]`; `str.split()` with no argument drops empty pieces, so
for an all-whitespace `name` (`pyBlank`) this raises `IndexError`,
and the `except` handler itself raises `NameError` because `sys` is never
imported in `dojo.py` — the exception escapes with the person already
registered.  `kO`/`kL` are the office / living-space random choices and
`fresh` the generated uuid. -/
def add_person (d : Dojo) (name person_type wants_accommodation fresh : String)
    (kO kL : Nat) : PyOutcome × Dojo :=
  let pt := pyUpper person_type
  if !(pt == "FELLOW" || pt == "STAFF") then (.ret false, d)
  else if pt == "STAFF" && pyUpper wants_accommodation == "Y" then (.ret false, d)
  else
    let p0 := if pt == "FELLOW" then mkFellow name wants_accommodation fresh
              else mkStaff name fresh
    let offices1 := (allocate_office d.offices p0 kO).1
    let p1 := (allocate_office d.offices p0 kO).2
    let d1 : Dojo := { d with offices := offices1, people := d.people ++ [p1] }
    if pyBlank name then
      (.exn "NameError", d1)
    else if pt == "FELLOW" && p1.wants_accommodation then
      (.ret true, { d with offices := offices1,
                           living_spaces := (allocate_living_space d.living_spaces p1 kL).1,
                           people := d.people ++
                             [(allocate_living_space d.living_spaces p1 kL).2] })
    else (.ret true, d1)

/-- The two concrete room kinds; `DojoApp.reallocate_person` resolves the
target room to one of them (`new_room_type`). -/
inductive RoomKind where
  | office : RoomKind
  | living : RoomKind
deriving DecidableEq

/-- `self.dojo.offices if new_room_type == 'office' else self.dojo.living_spaces`. -/
def kindList (d : Dojo) : RoomKind → List Room
  | .office => d.offices
  | .living => d.living_spaces

def setKindList (d : Dojo) (k : RoomKind) (rs : List Room) : Dojo :=
  match k with
  | .office => { d with offices := rs }
  | .living => { d with living_spaces := rs }

/-- `next((p for p in self.dojo.people if p.person_id == person_id), None)`. -/
def findPerson (d : Dojo) (pid : String) : Option Person :=
  d.people.find? (fun p => p.person_id == pid)

/-- Outcome of the target-room search of `DojoApp.reallocate_person`
(`src/cli.py` lines 238–264): offices are scanned first; a living-space
match is only accepted for a Fellow with `wants_accommodation`. -/
inductive TargetRes where
  | notFound : TargetRes
  | ineligible : TargetRes
  | found (kind : RoomKind) (idx : Nat) : TargetRes
deriving DecidableEq

def findTarget (d : Dojo) (p : Person) (rname : String) : TargetRes :=
  match d.offices.findIdx? (fun r => pyLower r.name == pyLower rname) with
  | some i => .found .office i
  | none =>
    match d.living_spaces.findIdx? (fun r => pyLower r.name == pyLower rname) with
    | some j =>
      if p.person_type == "FELLOW" && p.wants_accommodation then .found .living j
      else .ineligible
    | none => .notFound

/-- First room of the same kind whose occupant list contains the person
(`src/cli.py` lines 271–278). -/
def findCurrentIdx (rooms : List Room) (pid : String) : Option Nat :=
  rooms.findIdx? (fun r => r.occupants.contains pid)

/-- Lines 291–295: clear the allocation status of the room being left —
the source stores the boolean `False`, not `None`. -/
def clearFieldFor (p : Person) (room_type : String) : Person :=
  if room_type == "office" then { p with office_allocated := .flag false }
  else if room_type == "living_space" then { p with living_space_allocated := .flag false }
  else p

/-- Lines 300–304: record the new allocation status — the source stores
the boolean `True`, not the room. -/
def setFieldFor (p : Person) (room_type : String) : Person :=
  if room_type == "office" then { p with office_allocated := .flag true }
  else { p with living_space_allocated := .flag true }

/-- In-place mutation of the shared `Person` object, modelled by
rewriting every entry with that id (ids are unique in reachable states). -/
def updatePerson (people : List Person) (pid : String) (p' : Person) : List Person :=
  people.map (fun q => if q.person_id == pid then p' else q)

/-- The mutation block of `DojoApp.reallocate_person` (`src/cli.py` lines
285–307) when a current room of the target's kind exists: remove the id
from the current room (`list.remove`, first occurrence), store `False` in
the allocation attribute for the current room's type, append the id to the
target room and store `True` for the target room's type.  The target is
re-read after the removal because both are objects of the same list. -/
def moveWithCurrent (d : Dojo) (kind : RoomKind) (tIdx cIdx : Nat) (p : Person)
    (pid : String) : Dojo :=
  let rooms := kindList d kind
  let target := rooms.getD tIdx dRoom
  let current := rooms.getD cIdx dRoom
  let p1 := clearFieldFor p current.room_type
  let rooms1 := rooms.set cIdx
    { current with occupants := current.occupants.erase pid }
  let target1 := rooms1.getD tIdx dRoom
  let rooms2 := rooms1.set tIdx
    { target1 with occupants := target1.occupants ++ [pid] }
  let p2 := setFieldFor p1 target.room_type
  { setKindList d kind rooms2 with people := updatePerson d.people pid p2 }

/-- The mutation block when the person has no current room of the
target's kind: just append and store `True`. -/
def moveNoCurrent (d : Dojo) (kind : RoomKind) (tIdx : Nat) (p : Person)
    (pid : String) : Dojo :=
  let rooms := kindList d kind
  let target := rooms.getD tIdx dRoom
  let rooms2 := rooms.set tIdx
    { target with occupants := target.occupants ++ [pid] }
  let p2 := setFieldFor p target.room_type
  { setKindList d kind rooms2 with people := updatePerson d.people pid p2 }

/-- `DojoApp.reallocate_person` (`src/cli.py` lines 221–311).  All checks
precede any mutation; the `try` block at lines 286–307 cannot raise
(`occupants.remove` is reached only when the id is present), so the
exception branch returning `False` is dead. -/
def reallocate_person (d : Dojo) (pid rname : String) : Bool × Dojo :=
  match findPerson d pid with
  | none => (false, d)
  | some p =>
    match findTarget d p rname with
    | .notFound => (false, d)
    | .ineligible => (false, d)
    | .found kind tIdx =>
      let rooms := kindList d kind
      let target := rooms.getD tIdx dRoom
      if target.capacity ≤ target.occupants.length then (false, d)
      else
        match findCurrentIdx rooms pid with
        | some cIdx =>
          let current := rooms.getD cIdx dRoom
          if pyLower current.name == pyLower target.name then (false, d)
          else (true, moveWithCurrent d kind tIdx cIdx p pid)
        | none => (true, moveNoCurrent d kind tIdx p pid)

/-- One allocation-engine call, as observed by the domain instance.  The
`fresh`/`kO`/`kL` data of `addPerson` are the uuid and random choices of
that call. -/
inductive Op where
  | createRoom (room_type : String) (names : List String) : Op
  | addPerson (name person_type wants_accommodation fresh : String) (kO kL : Nat) : Op
  | reallocatePerson (pid rname : String) : Op

/-- State after one call; on the `add_person` exception path the mutated
state is kept, exactly as the caller observes it. -/
def applyOp (d : Dojo) : Op → Dojo
  | .createRoom rt ns => (create_room d rt ns).2
  | .addPerson n pt wa fresh kO kL => (add_person d n pt wa fresh kO kL).2
  | .reallocatePerson pid rn => (reallocate_person d pid rn).2

/-- State after a call sequence starting from the empty domain instance. -/
def runOps (ops : List Op) : Dojo := ops.foldl applyOp emptyDojo

example : (create_room emptyDojo "office" ["Blue", "Red"]).1 = true := by decide
example :
    ((runOps [.createRoom "office" ["Blue", "Red"],
              .addPerson "Ann" "FELLOW" "N" "id1" 0 0]).offices.map
      (fun r => r.occupants)) = [["id1"], []] := by decide
example :
    (reallocate_person
      (runOps [.createRoom "office" ["Blue", "Red"],
               .addPerson "Ann" "FELLOW" "N" "id1" 0 0]) "id1" "Red").1 = true := by
  decide

/-! ### Persistence mapper (`src/models/db/utils.py`) and storage backend
(`src/models/db/service.py`) -/

/-- `room.name.lower().replace(' ', '_')` (`to_db_room`, line 141). -/
def slug (name : String) : String :=
  ⟨(pyLower name).data.map (fun c => if c = ' ' then '_' else c)⟩

/-- Row produced by `to_db_room`: an `OfficeDB`/`LivingSpaceDB` row with
`id`, `name`, `type` and `capacity` columns (`room_models.py`). -/
structure DbRoomOut where
  id : String
  name : String
  rtype : String
  capacity : Nat
deriving DecidableEq

/-- `to_db_room` (`src/models/db/utils.py` lines 128–165).  The Python
class-name test and the `room_type` test coincide in the embedding, where
a room's concrete class is its `room_type` field; the capacity fallback
(6 → office, 4 → living space) only fires for rooms of unknown type, and
any other capacity raises `ValueError`, modelled as `none`. -/
def to_db_room (r : Room) : Option DbRoomOut :=
  let room_id := slug r.name
  if r.room_type == "office" then some ⟨room_id, r.name, "office", 6⟩
  else if r.room_type == "living_space" then some ⟨room_id, r.name, "living_space", 4⟩
  else if r.capacity == 6 then some ⟨room_id, r.name, "office", 6⟩
  else if r.capacity == 4 then some ⟨room_id, r.name, "living_space", 4⟩
  else none

/-- Row produced by `to_db_person`: a `StaffDB`/`FellowDB` row.
`wants_accommodation` is the auxiliary `fellows` column (`none` for
staff); the foreign keys hold whatever Python value was assigned
(`db_person.office_id = person.office_allocated`), hence `Alloc`. -/
structure DbPersonOut where
  id : String
  name : String
  ptype : String
  wants_accommodation : Option Bool
  office_id : Option Alloc
  living_space_id : Option Alloc
deriving DecidableEq

/-- `to_db_person` (`src/models/db/utils.py` lines 40–92).  The foreign
keys are set from the raw `office_allocated` / `living_space_allocated`
attribute when it is truthy (`if person.office_allocated:`); a Staff
person has no `living_space_allocated` attribute, which coincides with
the attribute being `Alloc.nil`.  An unknown `person_type` raises
`ValueError`, modelled as `none`. -/
def to_db_person (p : Person) : Option DbPersonOut :=
  if p.person_type == "STAFF" then
    some ⟨p.person_id, p.name, "STAFF", none,
      if p.office_allocated.truthy then some p.office_allocated else none,
      if p.living_space_allocated.truthy then some p.living_space_allocated else none⟩
  else if p.person_type == "FELLOW" then
    some ⟨p.person_id, p.name, "FELLOW", some p.wants_accommodation,
      if p.office_allocated.truthy then some p.office_allocated else none,
      if p.living_space_allocated.truthy then some p.living_space_allocated else none⟩
  else none

/-- A room row as read back by `DatabaseService.load_state`: the four
columns of the `rooms` table (`room_models.py`).  `save_state` only ever
writes `type` office/living_space with capacity 6/4, but `load_state`
accepts any store whose file carries the SQLite magic, so the columns
hold arbitrary values and a malformed row is representable. -/
structure DbRoomRow where
  id : String
  name : String
  rtype : String
  capacity : Nat

/-- A person row as read back by `load_state` (`people` joined with the
`fellows` auxiliary table). -/
structure DbPersonRow where
  id : String
  name : String
  ptype : String
  wants_accommodation : Bool
  office_id : Option String
  living_space_id : Option String

/-- Abstraction of the file at the path handed to `load_state`:
missing; present but its first 16 bytes differ from the SQLite magic
`b'SQLite format 3\x00'`; carrying the magic but failing to parse as a
database (every `SQLAlchemy` read error); or a well-formed store with
its row lists. -/
inductive DbFile where
  | absent : DbFile
  | badMagic : DbFile
  | unreadable : DbFile
  | good (rooms : List DbRoomRow) (people : List DbPersonRow) : DbFile

/-- `DatabaseService._is_valid_sqlite_db` (`service.py` lines 280–300):
the path is a file and starts with the SQLite magic header. -/
def is_valid_sqlite_db : DbFile → Bool
  | .absent => false
  | .badMagic => false
  | .unreadable => true
  | .good _ _ => true

/-- `to_domain_room` (`utils.py` lines 167–227) as one step of the
room-loading loop of `load_state`: the row is deduplicated by exact name
against the target instance (and the service's `loaded_rooms` name set,
which skips exactly the same rows), then reconstructed through the
concrete constructors when its `type` column is recognised — `office`,
`living_space` or `living space` — falling back on the capacity (6 →
office, 4 → living space) otherwise; any other row raises `ValueError`
(lines 218 and 220), modelled as `none`.  The occupant-restore loop at
lines 223–225 iterates `db_room.occupants`, a relationship over the
`person_room_association` table that no code ever populates, so the
reconstructed room always keeps an empty occupant list. -/
def load_room (d : Dojo) (row : DbRoomRow) : Option Dojo :=
  if d.offices.any (fun r => r.name == row.name) ||
      d.living_spaces.any (fun r => r.name == row.name) then some d
  else if row.rtype == "office" then
    some { d with offices := d.offices ++ [Office row.name] }
  else if row.rtype == "living_space" || row.rtype == "living space" then
    some { d with living_spaces := d.living_spaces ++ [LivingSpace row.name] }
  else if row.capacity == 6 then
    some { d with offices := d.offices ++ [Office row.name] }
  else if row.capacity == 4 then
    some { d with living_spaces := d.living_spaces ++ [LivingSpace row.name] }
  else none

/-- The room loop of `load_state` (`service.py` lines 221–235): rows are
processed in order, and a `ValueError` raised by `to_domain_room` escapes
to the handler at line 269, which returns `False` with the rooms read
before the failing row already appended to the (cleared) instance. -/
def load_rooms_loop : Dojo → List DbRoomRow → Bool × Dojo
  | d, [] => (true, d)
  | d, row :: rows =>
    match load_room d row with
    | none => (false, d)
    | some d1 => load_rooms_loop d1 rows

/-- `to_domain_person` (`utils.py` lines 94–126) as used by `load_state`:
skip ids already present, rebuild the concrete person (the stored id
replaces the fresh uuid), and restore the assignment attributes from the
foreign keys when they are truthy strings. -/
def load_person (d : Dojo) (row : DbPersonRow) : Dojo :=
  if d.people.any (fun p => p.person_id == row.id) then d
  else
    let base : Person :=
      if row.ptype == "STAFF" then ⟨row.name, row.id, "STAFF", false, .nil, .nil⟩
      else ⟨row.name, row.id, "FELLOW", row.wants_accommodation, .nil, .nil⟩
    let p1 := match row.office_id with
      | some s => if s != "" then { base with office_allocated := .name s } else base
      | none => base
    let p2 := match row.living_space_id with
      | some s => if s != "" then { p1 with living_space_allocated := .name s } else p1
      | none => p1
    { d with people := d.people ++ [p2] }

/-- The in-place clearing of the target instance performed by
`load_state` before its first read (`service.py` lines 210–215). -/
def clearedDojo (d : Dojo) : Dojo :=
  { d with offices := [], living_spaces := [], people := [] }

/-- `DatabaseService.load_state` (`service.py` lines 174–278).  The
missing-file and bad-signature checks return `False` before touching the
target instance; after them the target's lists are cleared in place
(lines 210–215), so a read failure (`unreadable`) returns `False` with
the instance already emptied, and a `ValueError` on a malformed room row
returns `False` with the instance cleared and the rooms read before that
row already appended.  Person rows cannot abort the load: the person loop
catches exceptions per row and continues (lines 240–259). -/
def service_load_state (d : Dojo) (f : DbFile) : Bool × Dojo :=
  match f with
  | .absent => (false, d)
  | .badMagic => (false, d)
  | .unreadable => (false, clearedDojo d)
  | .good rooms people =>
    match load_rooms_loop (clearedDojo d) rooms with
    | (false, d1) => (false, d1)
    | (true, d1) => (true, people.foldl load_person d1)

/-! ### Invariants and run predicates -/

/-- Every office is an office of capacity 6 with at most 6 occupants,
every living space a living space of capacity 4 with at most 4. -/
def CapOK (d : Dojo) : Prop :=
  (∀ r ∈ d.offices, r.room_type = "office" ∧ r.capacity = 6 ∧ r.occupants.length ≤ 6) ∧
  (∀ r ∈ d.living_spaces,
    r.room_type = "living_space" ∧ r.capacity = 4 ∧ r.occupants.length ≤ 4)

/-- Person ids are pairwise distinct and nonempty (as uuid prefixes are). -/
def IdsOK (d : Dojo) : Prop :=
  (d.people.map Person.person_id).Nodup ∧ ∀ p ∈ d.people, p.person_id ≠ ""

/-- Room names are unique ignoring case across both kinds. -/
def NamesOK (d : Dojo) : Prop :=
  ((d.offices ++ d.living_spaces).map (fun r => pyLower r.name)).Nodup

/-- Every occupant id belongs to a registered person. -/
def OccOwned (d : Dojo) : Prop :=
  ∀ r ∈ d.offices ++ d.living_spaces, ∀ x ∈ r.occupants, ∃ p ∈ d.people, p.person_id = x

/-- A Staff person never carries a living-space assignment and is never
an occupant of any living space. -/
def StaffOK (d : Dojo) : Prop :=
  ∀ p ∈ d.people, p.person_type = "STAFF" →
    p.living_space_allocated = Alloc.nil ∧ ∀ r ∈ d.living_spaces, p.person_id ∉ r.occupants

/-- Every room-name recorded in an assignment attribute names an existing
room of that kind. -/
def FieldsOK (d : Dojo) : Prop :=
  ∀ p ∈ d.people,
    (∀ s, p.office_allocated = Alloc.name s → ∃ r ∈ d.offices, r.name = s) ∧
    (∀ s, p.living_space_allocated = Alloc.name s → ∃ r ∈ d.living_spaces, r.name = s)

/-- Structural well-formedness preserved by every engine operation
(given fresh uuids). -/
def InvBase (d : Dojo) : Prop := CapOK d ∧ IdsOK d ∧ OccOwned d ∧ StaffOK d

/-- Bidirectional consistency (spec invariant 2): a person's id is in a
room's occupants iff that person's assignment attribute for the room's
kind holds that room's name. -/
def Consistent (d : Dojo) : Prop :=
  ∀ p ∈ d.people,
    (∀ r ∈ d.offices, p.person_id ∈ r.occupants ↔ p.office_allocated = Alloc.name r.name) ∧
    (∀ r ∈ d.living_spaces,
      p.person_id ∈ r.occupants ↔ p.living_space_allocated = Alloc.name r.name)

/-- Full invariant of states reachable through `create_room`/`add_person`
alone; `reallocate_person` breaks the `Consistent` component. -/
def InvFull (d : Dojo) : Prop :=
  InvBase d ∧ NamesOK d ∧ FieldsOK d ∧ Consistent d

/-- The uuid generated for an `addPerson` call is nonempty and unused —
the property `str(uuid.uuid4())[:8]` provides in the source. -/
def FreshOkB (d : Dojo) : Op → Bool
  | .addPerson _ _ _ fresh _ _ =>
      fresh != "" && d.people.all (fun p => p.person_id != fresh)
  | .createRoom _ _ => true
  | .reallocatePerson _ _ => true

/-- All uuids along a run are fresh at the moment they are generated. -/
def freshAlongB : Dojo → List Op → Bool
  | _, [] => true
  | d, op :: ops => FreshOkB d op && freshAlongB (applyOp d op) ops

/-- The run contains no `reallocatePerson` call. -/
def onlyCreateAddB : List Op → Bool
  | [] => true
  | .createRoom _ _ :: ops => onlyCreateAddB ops
  | .addPerson _ _ _ _ _ _ :: ops => onlyCreateAddB ops
  | .reallocatePerson _ _ :: _ => false

/-- The assignment attribute matching a room kind. -/
def fieldFor (p : Person) : RoomKind → Alloc
  | .office => p.office_allocated
  | .living => p.living_space_allocated

/-- The `room_type` string of each kind's concrete class. -/
def kindTypeStr : RoomKind → String
  | .office => "office"
  | .living => "living_space"

/-- The fixed capacity of each kind (6 offices, 4 living spaces). -/
def capFor : RoomKind → Nat
  | .office => 6
  | .living => 4

/-- A small reachable state used by concrete witnesses: two offices
"Blue" and "Red", and the fellow "Ann" (id `id1`, no accommodation) whom
`add_person` placed into "Blue". -/
def dState1 : Dojo :=
  runOps [.createRoom "office" ["Blue", "Red"], .addPerson "Ann" "FELLOW" "N" "id1" 0 0]

/-! ### List helper lemmas used throughout the development -/

section ListLemmas

variable {α β : Type} {e : α}

theorem getD_set_self (l : List α) (i : Nat) (a : α) (d₀ : α) (h : i < l.length) :
    (l.set i a).getD i d₀ = a := by
  rw [List.getD_eq_getElem?_getD, List.getElem?_set_self h]
  rfl

theorem getD_set_ne (l : List α) (i j : Nat) (a : α) (d₀ : α) (h : i ≠ j) :
    (l.set i a).getD j d₀ = l.getD j d₀ := by
  rw [List.getD_eq_getElem?_getD, List.getElem?_set_ne h, ← List.getD_eq_getElem?_getD]

theorem getD_mem (l : List α) (i : Nat) (d₀ : α) (h : i < l.length) :
    l.getD i d₀ ∈ l := by
  rw [List.getD_eq_getElem l d₀ h]
  exact List.getElem_mem h

theorem mem_iff_getD (l : List α) (a : α) (d₀ : α) :
    a ∈ l ↔ ∃ i, i < l.length ∧ l.getD i d₀ = a := by
  rw [List.mem_iff_getElem]
  constructor
  · rintro ⟨i, h, rfl⟩
    exact ⟨i, h, List.getD_eq_getElem l d₀ h⟩
  · rintro ⟨i, h, rfl⟩
    exact ⟨i, h, (List.getD_eq_getElem l d₀ h).symm⟩

theorem findIdx?_eq_some_getD {l : List α} {p : α → Bool} {i : Nat} (d₀ : α) :
    l.findIdx? p = some i ↔
      i < l.length ∧ p (l.getD i d₀) = true ∧ ∀ j, j < i → p (l.getD j d₀) = false := by
  rw [List.findIdx?_eq_some_iff_getElem]
  constructor
  · rintro ⟨h, hp, hlt⟩
    refine ⟨h, ?_, ?_⟩
    · rwa [List.getD_eq_getElem l d₀ h]
    · intro j hj
      have := hlt j hj
      rw [List.getD_eq_getElem l d₀ (Nat.lt_trans hj h)]
      simpa using this
  · rintro ⟨h, hp, hlt⟩
    refine ⟨h, ?_, ?_⟩
    · rwa [List.getD_eq_getElem l d₀ h] at hp
    · intro j hj
      have := hlt j hj
      rw [List.getD_eq_getElem l d₀ (Nat.lt_trans hj h)] at this
      simpa using this

theorem findIdx?_congr_of_map_eq {p : β → Bool} {f : α → β} :
    ∀ {l l' : List α}, l.map f = l'.map f →
      l.findIdx? (fun x => p (f x)) = l'.findIdx? (fun x => p (f x))
  | [], [], _ => rfl
  | a :: l, a' :: l', h => by
    simp only [List.map_cons, List.cons.injEq] at h
    simp only [List.findIdx?_cons, Nat.zero_add, List.findIdx?_succ, h.1,
      findIdx?_congr_of_map_eq h.2]

theorem map_set_same {f : α → β} {l : List α} {i : Nat} {a : α}
    (hi : i < l.length) (hf : f a = f (l.getD i e)) :
    (l.set i a).map f = l.map f := by
  rw [List.getD_eq_getElem l e hi] at hf
  apply List.ext_getElem
  · simp
  · intro n h1 h2
    simp only [List.getElem_map, List.getElem_set]
    rcases eq_or_ne i n with rfl | hne
    · simpa using hf
    · simp [hne]

theorem nodup_map_getD_ne {f : α → β} {l : List α} {i j : Nat}
    (hn : (l.map f).Nodup) (hi : i < l.length) (hj : j < l.length) (hij : i ≠ j) :
    f (l.getD i e) ≠ f (l.getD j e) := by
  rw [List.getD_eq_getElem l e hi, List.getD_eq_getElem l e hj]
  intro hfe
  apply hij
  have hi' : i < (l.map f).length := by simpa using hi
  have hj' : j < (l.map f).length := by simpa using hj
  have : (l.map f)[i] = (l.map f)[j] := by
    simpa using hfe
  exact (List.Nodup.getElem_inj_iff hn).mp this

theorem nodup_map_mem_inj {f : α → β} {l : List α} {a b : α}
    (hn : (l.map f).Nodup) (ha : a ∈ l) (hb : b ∈ l) (hf : f a = f b) : a = b := by
  obtain ⟨i, hi, rfl⟩ := List.mem_iff_getElem.mp ha
  obtain ⟨j, hj, rfl⟩ := List.mem_iff_getElem.mp hb
  rcases eq_or_ne i j with rfl | hne
  · rfl
  · exfalso
    have hi' : i < (l.map f).length := by simpa using hi
    have hj' : j < (l.map f).length := by simpa using hj
    have : (l.map f)[i] = (l.map f)[j] := by simpa using hf
    exact hne ((List.Nodup.getElem_inj_iff hn).mp this)

theorem getD_append_left {l₁ l₂ : List α} {i : Nat} (h : i < l₁.length) (d₀ : α) :
    (l₁ ++ l₂).getD i d₀ = l₁.getD i d₀ := by
  rw [List.getD_eq_getElem _ d₀ (by simp; omega), List.getD_eq_getElem _ d₀ h,
    List.getElem_append_left]

theorem getD_append_right' {l₁ l₂ : List α} {i : Nat} (h : i < l₂.length) (d₀ : α) :
    (l₁ ++ l₂).getD (l₁.length + i) d₀ = l₂.getD i d₀ := by
  rw [List.getD_eq_getElem _ d₀ (by simp; omega), List.getD_eq_getElem _ d₀ h]
  rw [List.getElem_append_right (by omega)]
  congr 1
  omega

end ListLemmas

/-! ### Facts about the search helpers of `reallocate_person` -/

theorem findPerson_mem {d : Dojo} {pid : String} {p : Person}
    (h : findPerson d pid = some p) : p ∈ d.people ∧ p.person_id = pid := by
  unfold findPerson at h
  exact ⟨List.mem_of_find?_eq_some h, by
    have := List.find?_some h
    simpa using this⟩

theorem findTarget_found {d : Dojo} {p : Person} {rname : String} {kind : RoomKind}
    {i : Nat} (h : findTarget d p rname = .found kind i) :
    i < (kindList d kind).length ∧
    pyLower ((kindList d kind).getD i dRoom).name = pyLower rname ∧
    (∀ j, j < i → pyLower ((kindList d kind).getD j dRoom).name ≠ pyLower rname) ∧
    (kind = .living → (p.person_type = "FELLOW" ∧ p.wants_accommodation = true) ∧
      ∀ r ∈ d.offices, pyLower r.name ≠ pyLower rname) := by
  unfold findTarget at h
  split at h
  · rename_i io hio
    cases h
    obtain ⟨hlt, hp, hprev⟩ := (findIdx?_eq_some_getD dRoom).mp hio
    refine ⟨hlt, by simpa using hp, ?_, by intro hk; cases hk⟩
    intro j hj
    have := hprev j hj
    simpa using this
  · rename_i hio
    split at h
    · rename_i il hil
      split at h
      · rename_i he
        cases h
        obtain ⟨hlt, hp, hprev⟩ := (findIdx?_eq_some_getD dRoom).mp hil
        refine ⟨hlt, by simpa using hp, ?_, ?_⟩
        · intro j hj
          have := hprev j hj
          simpa using this
        · intro _
          constructor
          · simpa [Bool.and_eq_true] using he
          · intro r hr
            have := List.findIdx?_eq_none_iff.mp hio r hr
            simpa using this
      · cases h
    · cases h

theorem findCurrentIdx_some {rooms : List Room} {pid : String} {i : Nat}
    (h : findCurrentIdx rooms pid = some i) :
    i < rooms.length ∧ pid ∈ (rooms.getD i dRoom).occupants ∧
      ∀ j, j < i → pid ∉ (rooms.getD j dRoom).occupants := by
  unfold findCurrentIdx at h
  obtain ⟨hlt, hp, hprev⟩ := (findIdx?_eq_some_getD dRoom).mp h
  refine ⟨hlt, by simpa using hp, ?_⟩
  intro j hj
  have := hprev j hj
  simpa using this

theorem findCurrentIdx_of {rooms : List Room} {pid : String} {i : Nat}
    (hlt : i < rooms.length) (hmem : pid ∈ (rooms.getD i dRoom).occupants)
    (hprev : ∀ j, j < i → pid ∉ (rooms.getD j dRoom).occupants) :
    findCurrentIdx rooms pid = some i := by
  unfold findCurrentIdx
  exact (findIdx?_eq_some_getD dRoom).mpr
    ⟨hlt, by simpa using hmem, fun j hj => by simpa using hprev j hj⟩

theorem findCurrentIdx_none {rooms : List Room} {pid : String}
    (h : ∀ r ∈ rooms, pid ∉ r.occupants) : findCurrentIdx rooms pid = none := by
  unfold findCurrentIdx
  rw [List.findIdx?_eq_none_iff]
  intro r hr
  simpa using h r hr

theorem findTarget_congr {d d' : Dojo} {p p' : Person} (rname : String)
    (ho : d'.offices.map Room.name = d.offices.map Room.name)
    (hl : d'.living_spaces.map Room.name = d.living_spaces.map Room.name)
    (ht : p'.person_type = p.person_type)
    (hw : p'.wants_accommodation = p.wants_accommodation) :
    findTarget d' p' rname = findTarget d p rname := by
  unfold findTarget
  rw [findIdx?_congr_of_map_eq (p := fun nm => pyLower nm == pyLower rname)
        (f := Room.name) ho,
      findIdx?_congr_of_map_eq (p := fun nm => pyLower nm == pyLower rname)
        (f := Room.name) hl,
      ht, hw]

theorem findPerson_updatePerson {people : List Person} {pid : String} {p p' : Person}
    (h : people.find? (fun q => q.person_id == pid) = some p)
    (hid : p'.person_id = p.person_id) :
    (updatePerson people pid p').find? (fun q => q.person_id == pid) = some p' := by
  induction people with
  | nil => cases h
  | cons q rest ih =>
    have hcons : updatePerson (q :: rest) pid p' =
        (if q.person_id == pid then p' else q) :: updatePerson rest pid p' := rfl
    rw [hcons]
    by_cases hq : q.person_id == pid
    · rw [List.find?_cons, hq] at h
      have hqp : q = p := by simpa using h
      rw [if_pos hq, List.find?_cons]
      have hp' : (p'.person_id == pid) = true := by
        rw [hid]
        subst hqp
        exact hq
      rw [hp']
    · have hf : (q.person_id == pid) = false := Bool.eq_false_iff.mpr hq
      rw [List.find?_cons, hf] at h
      rw [if_neg hq, List.find?_cons, hf]
      exact ih h

theorem updatePerson_id_map {people : List Person} {pid : String} {p' : Person}
    (hid : p'.person_id = pid) :
    (updatePerson people pid p').map Person.person_id = people.map Person.person_id := by
  unfold updatePerson
  rw [List.map_map]
  apply List.map_congr_left
  intro q _
  by_cases hq : q.person_id == pid
  · simp only [Function.comp_apply, if_pos hq]
    rw [hid]
    exact (by simpa using hq : q.person_id = pid).symm
  · have hq' : q.person_id ≠ pid := by simpa using hq
    simp [Function.comp_apply, hq']

theorem mem_updatePerson {people : List Person} {pid : String} {p' q : Person}
    (hq : q ∈ updatePerson people pid p') :
    (q = p' ∧ ∃ q₀ ∈ people, q₀.person_id = pid) ∨
      (q ∈ people ∧ q.person_id ≠ pid) := by
  unfold updatePerson at hq
  obtain ⟨q₀, hq₀, heq⟩ := List.mem_map.mp hq
  by_cases h : q₀.person_id == pid
  · rw [if_pos h] at heq
    exact Or.inl ⟨heq.symm, q₀, hq₀, by simpa using h⟩
  · rw [if_neg h] at heq
    subst heq
    exact Or.inr ⟨hq₀, by simpa using h⟩

theorem updatePerson_mem_self {people : List Person} {pid : String} {p p' : Person}
    (h : p ∈ people) (hid : p.person_id = pid) :
    p' ∈ updatePerson people pid p' := by
  unfold updatePerson
  refine List.mem_map.mpr ⟨p, h, ?_⟩
  rw [if_pos (by simpa using hid)]

/-! ### Execution lemmas for `reallocate_person` -/

theorem reallocate_success_cur (d : Dojo) (pid rname : String) {p : Person}
    {kind : RoomKind} {tIdx cIdx : Nat}
    (hp : findPerson d pid = some p)
    (ht : findTarget d p rname = .found kind tIdx)
    (hfull : ((kindList d kind).getD tIdx dRoom).occupants.length <
      ((kindList d kind).getD tIdx dRoom).capacity)
    (hcur : findCurrentIdx (kindList d kind) pid = some cIdx)
    (hname : pyLower ((kindList d kind).getD cIdx dRoom).name ≠
      pyLower ((kindList d kind).getD tIdx dRoom).name) :
    reallocate_person d pid rname = (true, moveWithCurrent d kind tIdx cIdx p pid) := by
  unfold reallocate_person
  simp only [hp, ht, hcur]
  rw [if_neg (Nat.not_le.mpr hfull), if_neg (by simpa using hname)]

theorem reallocate_success_nocur (d : Dojo) (pid rname : String) {p : Person}
    {kind : RoomKind} {tIdx : Nat}
    (hp : findPerson d pid = some p)
    (ht : findTarget d p rname = .found kind tIdx)
    (hfull : ((kindList d kind).getD tIdx dRoom).occupants.length <
      ((kindList d kind).getD tIdx dRoom).capacity)
    (hcur : findCurrentIdx (kindList d kind) pid = none) :
    reallocate_person d pid rname = (true, moveNoCurrent d kind tIdx p pid) := by
  unfold reallocate_person
  simp only [hp, ht, hcur]
  rw [if_neg (Nat.not_le.mpr hfull)]

theorem reallocate_inv (d : Dojo) (pid rname : String) :
    reallocate_person d pid rname = (false, d) ∨
    ∃ p kind tIdx, findPerson d pid = some p ∧
      findTarget d p rname = .found kind tIdx ∧
      ((kindList d kind).getD tIdx dRoom).occupants.length <
        ((kindList d kind).getD tIdx dRoom).capacity ∧
      ((∃ cIdx, findCurrentIdx (kindList d kind) pid = some cIdx ∧
          pyLower ((kindList d kind).getD cIdx dRoom).name ≠
            pyLower ((kindList d kind).getD tIdx dRoom).name ∧
          reallocate_person d pid rname =
            (true, moveWithCurrent d kind tIdx cIdx p pid)) ∨
        (findCurrentIdx (kindList d kind) pid = none ∧
          reallocate_person d pid rname =
            (true, moveNoCurrent d kind tIdx p pid))) := by
  cases hp : findPerson d pid with
  | none =>
    left
    unfold reallocate_person
    simp only [hp]
  | some p =>
    cases ht : findTarget d p rname with
    | notFound =>
      left
      unfold reallocate_person
      simp only [hp, ht]
    | ineligible =>
      left
      unfold reallocate_person
      simp only [hp, ht]
    | found kind tIdx =>
      by_cases hfull : ((kindList d kind).getD tIdx dRoom).capacity ≤
          ((kindList d kind).getD tIdx dRoom).occupants.length
      · left
        unfold reallocate_person
        simp only [hp, ht]
        rw [if_pos hfull]
      · have hlt : ((kindList d kind).getD tIdx dRoom).occupants.length <
            ((kindList d kind).getD tIdx dRoom).capacity := Nat.lt_of_not_le hfull
        cases hcur : findCurrentIdx (kindList d kind) pid with
        | none =>
          right
          exact ⟨p, kind, tIdx, rfl, ht, hlt,
            Or.inr ⟨hcur, reallocate_success_nocur d pid rname hp ht hlt hcur⟩⟩
        | some cIdx =>
          by_cases hname : pyLower ((kindList d kind).getD cIdx dRoom).name ==
              pyLower ((kindList d kind).getD tIdx dRoom).name
          · left
            unfold reallocate_person
            simp only [hp, ht, hcur]
            rw [if_neg (Nat.not_le.mpr hlt), if_pos hname]
          · have hne : pyLower ((kindList d kind).getD cIdx dRoom).name ≠
                pyLower ((kindList d kind).getD tIdx dRoom).name := by
              simpa using hname
            right
            exact ⟨p, kind, tIdx, rfl, ht, hlt,
              Or.inl ⟨cIdx, hcur, hne,
                reallocate_success_cur d pid rname hp ht hlt hcur hne⟩⟩

theorem reallocate_false_eq {d : Dojo} {pid rname : String}
    (h : (reallocate_person d pid rname).1 = false) :
    (reallocate_person d pid rname).2 = d := by
  rcases reallocate_inv d pid rname with heq | ⟨p, kind, tIdx, _, _, _, hsub⟩
  · rw [heq]
  · rcases hsub with ⟨cIdx, _, _, heq⟩ | ⟨_, heq⟩ <;>
      rw [heq] at h <;> cases h

/-! ### Projections of the two mutation blocks -/

theorem clearFieldFor_id (p : Person) (t : String) :
    (clearFieldFor p t).person_id = p.person_id := by
  unfold clearFieldFor
  split
  · rfl
  · split <;> rfl

theorem clearFieldFor_type (p : Person) (t : String) :
    (clearFieldFor p t).person_type = p.person_type := by
  unfold clearFieldFor
  split
  · rfl
  · split <;> rfl

theorem clearFieldFor_wants (p : Person) (t : String) :
    (clearFieldFor p t).wants_accommodation = p.wants_accommodation := by
  unfold clearFieldFor
  split
  · rfl
  · split <;> rfl

theorem setFieldFor_id (p : Person) (t : String) :
    (setFieldFor p t).person_id = p.person_id := by
  unfold setFieldFor
  split <;> rfl

theorem setFieldFor_type (p : Person) (t : String) :
    (setFieldFor p t).person_type = p.person_type := by
  unfold setFieldFor
  split <;> rfl

theorem setFieldFor_wants (p : Person) (t : String) :
    (setFieldFor p t).wants_accommodation = p.wants_accommodation := by
  unfold setFieldFor
  split <;> rfl

theorem setFieldFor_field (p : Person) (kind : RoomKind) :
    fieldFor (setFieldFor p (kindTypeStr kind)) kind = Alloc.flag true := by
  cases kind <;> rfl

theorem moveWithCurrent_eq (d : Dojo) (kind : RoomKind) (tIdx cIdx : Nat)
    (p : Person) (pid : String) (hne : cIdx ≠ tIdx) :
    moveWithCurrent d kind tIdx cIdx p pid =
      { setKindList d kind
          (((kindList d kind).set cIdx
              { (kindList d kind).getD cIdx dRoom with
                  occupants := ((kindList d kind).getD cIdx dRoom).occupants.erase pid }).set
            tIdx
            { (kindList d kind).getD tIdx dRoom with
                occupants := ((kindList d kind).getD tIdx dRoom).occupants ++ [pid] }) with
        people := updatePerson d.people pid
          (setFieldFor (clearFieldFor p ((kindList d kind).getD cIdx dRoom).room_type)
            ((kindList d kind).getD tIdx dRoom).room_type) } := by
  simp only [moveWithCurrent]
  rw [getD_set_ne _ cIdx tIdx _ _ hne]

theorem moveWithCurrent_people (d : Dojo) (kind : RoomKind) (tIdx cIdx : Nat)
    (p : Person) (pid : String) :
    (moveWithCurrent d kind tIdx cIdx p pid).people =
      updatePerson d.people pid
        (setFieldFor (clearFieldFor p ((kindList d kind).getD cIdx dRoom).room_type)
          ((kindList d kind).getD tIdx dRoom).room_type) := by
  cases kind <;> rfl

theorem moveWithCurrent_kindList_other (d : Dojo) {kind k' : RoomKind}
    (tIdx cIdx : Nat) (p : Person) (pid : String) (h : k' ≠ kind) :
    kindList (moveWithCurrent d kind tIdx cIdx p pid) k' = kindList d k' := by
  cases kind <;> cases k' <;> first | rfl | exact absurd rfl h

theorem moveNoCurrent_kindList_self (d : Dojo) (kind : RoomKind) (tIdx : Nat)
    (p : Person) (pid : String) :
    kindList (moveNoCurrent d kind tIdx p pid) kind =
      (kindList d kind).set tIdx
        { (kindList d kind).getD tIdx dRoom with
            occupants := ((kindList d kind).getD tIdx dRoom).occupants ++ [pid] } := by
  cases kind <;> rfl

theorem moveNoCurrent_people (d : Dojo) (kind : RoomKind) (tIdx : Nat)
    (p : Person) (pid : String) :
    (moveNoCurrent d kind tIdx p pid).people =
      updatePerson d.people pid
        (setFieldFor p ((kindList d kind).getD tIdx dRoom).room_type) := by
  cases kind <;> rfl

theorem moveNoCurrent_kindList_other (d : Dojo) {kind k' : RoomKind} (tIdx : Nat)
    (p : Person) (pid : String) (h : k' ≠ kind) :
    kindList (moveNoCurrent d kind tIdx p pid) k' = kindList d k' := by
  cases kind <;> cases k' <;> first | rfl | exact absurd rfl h

theorem kindList_setKindList_self (d : Dojo) (k : RoomKind) (rs : List Room) :
    kindList (setKindList d k rs) k = rs := by
  cases k <;> rfl

theorem moveWithCurrent_kindList_self (d : Dojo) (kind : RoomKind) (tIdx cIdx : Nat)
    (p : Person) (pid : String) (hne : cIdx ≠ tIdx) :
    kindList (moveWithCurrent d kind tIdx cIdx p pid) kind =
      ((kindList d kind).set cIdx
          { (kindList d kind).getD cIdx dRoom with
              occupants := ((kindList d kind).getD cIdx dRoom).occupants.erase pid }).set
        tIdx
        { (kindList d kind).getD tIdx dRoom with
            occupants := ((kindList d kind).getD tIdx dRoom).occupants ++ [pid] } := by
  rw [moveWithCurrent_eq d kind tIdx cIdx p pid hne]
  cases kind <;> rfl

/-! ## Claim theorems -/

/-- Claim C10: for every room with available space, `add_occupant` called
with an empty or null `person_id` returns `False` and leaves the room's
occupant list untouched, even though the room is not full. -/
theorem claim_C10_add_occupant_blank (r : Room) (pid : Option String)
    (hblank : pid = none ∨ pid = some "")
    (_hspace : r.occupants.length < r.capacity) :
    Room.add_occupant_opt r pid = (false, r) := by
  rcases hblank with rfl | rfl
  · rfl
  · rfl

/-- Witness for C10 at a concrete non-full room and the empty id. -/
theorem claim_C10_witness :
    ((some "" : Option String) = none ∨ (some "" : Option String) = some "") ∧
    (Office "Blue").occupants.length < (Office "Blue").capacity ∧
    Room.add_occupant_opt (Office "Blue") (some "") = (false, Office "Blue") :=
  ⟨Or.inr rfl, by decide,
    claim_C10_add_occupant_blank (Office "Blue") (some "") (Or.inr rfl) (by decide)⟩

/-- Claim C6 (code bug witness): `Dojo.add_person` with an all-whitespace
name raises `NameError` (the `except` handler references `sys`, which
`dojo.py` never imports) instead of returning `False`, and the person is
already registered in the domain instance when the exception escapes. -/
theorem claim_C6_addPerson_raises :
    add_person emptyDojo "" "FELLOW" "N" "id1" 0 0 =
      (PyOutcome.exn "NameError",
        { emptyDojo with people := [⟨"", "id1", "FELLOW", false, .nil, .nil⟩] }) := by
  decide

/-- Claim C7: when the person's current room of the target's kind already
is the resolved target room (same name ignoring case), `reallocate_person`
returns `False` and leaves the domain instance unchanged. -/
theorem claim_C7_realloc_same_room (d : Dojo) (pid rname : String) {p : Person}
    {kind : RoomKind} {tIdx cIdx : Nat}
    (hp : findPerson d pid = some p)
    (ht : findTarget d p rname = .found kind tIdx)
    (hcur : findCurrentIdx (kindList d kind) pid = some cIdx)
    (hsame : pyLower ((kindList d kind).getD cIdx dRoom).name =
      pyLower ((kindList d kind).getD tIdx dRoom).name) :
    reallocate_person d pid rname = (false, d) := by
  unfold reallocate_person
  simp only [hp, ht, hcur]
  by_cases hfull : ((kindList d kind).getD tIdx dRoom).capacity ≤
      ((kindList d kind).getD tIdx dRoom).occupants.length
  · rw [if_pos hfull]
  · rw [if_neg hfull, if_pos (by simpa using hsame)]

/-- Witness for C7: Ann is in "Blue"; reallocating her to "Blue" fails
and changes nothing. -/
theorem claim_C7_witness :
    findPerson dState1 "id1" = some ⟨"Ann", "id1", "FELLOW", false, .name "Blue", .nil⟩ ∧
    findTarget dState1 ⟨"Ann", "id1", "FELLOW", false, .name "Blue", .nil⟩ "Blue" =
      .found .office 0 ∧
    findCurrentIdx (kindList dState1 .office) "id1" = some 0 ∧
    reallocate_person dState1 "id1" "Blue" = (false, dState1) :=
  ⟨by decide, by decide, by decide,
    @claim_C7_realloc_same_room dState1 "id1" "Blue"
      ⟨"Ann", "id1", "FELLOW", false, .name "Blue", .nil⟩ RoomKind.office 0 0
      (by decide) (by decide) (by decide) (by decide)⟩

theorem load_room_people {d d1 : Dojo} {row : DbRoomRow}
    (h : load_room d row = some d1) : d1.people = d.people := by
  unfold load_room at h
  repeat' split at h
  all_goals first
    | exact Option.noConfusion h
    | (injection h with h1; subst h1; rfl)

theorem load_rooms_loop_people : ∀ (rows : List DbRoomRow) (d : Dojo),
    (load_rooms_loop d rows).2.people = d.people
  | [], _ => rfl
  | row :: rows, d => by
    show (match load_room d row with
        | none => (false, d)
        | some d1 => load_rooms_loop d1 rows).2.people = d.people
    cases hlr : load_room d row with
    | none => rfl
    | some d1 => rw [load_rooms_loop_people rows d1, load_room_people hlr]

theorem load_rooms_loop_false : ∀ (rows : List DbRoomRow) (d : Dojo) {d1 : Dojo},
    load_rooms_loop d rows = (false, d1) →
    ∃ n, load_rooms_loop d (rows.take n) = (true, d1)
  | [], d, d1, h => by
    have h' : ((true : Bool), d) = (false, d1) := h
    injection h' with h1 h2
    cases h1
  | row :: rows, d, d1, h => by
    cases hlr : load_room d row with
    | none =>
      have hstep : load_rooms_loop d (row :: rows) = (false, d) := by
        show (match load_room d row with
            | none => (false, d)
            | some d2 => load_rooms_loop d2 rows) = (false, d)
        rw [hlr]
      rw [hstep] at h
      injection h with h1 h2
      exact ⟨0, by rw [← h2]; rfl⟩
    | some d2 =>
      have hstep : load_rooms_loop d (row :: rows) = load_rooms_loop d2 rows := by
        show (match load_room d row with
            | none => (false, d)
            | some d3 => load_rooms_loop d3 rows) = _
        rw [hlr]
      rw [hstep] at h
      obtain ⟨n, hn⟩ := load_rooms_loop_false rows d2 h
      refine ⟨n + 1, ?_⟩
      show (match load_room d row with
          | none => (false, d)
          | some d3 => load_rooms_loop d3 (rows.take n)) = (true, d1)
      rw [hlr]
      exact hn

/-- Claim C3 (counterexample): a file that passes the SQLite-signature
check but fails to read (`DbFile.unreadable`) makes `load_state` return
`False` with the caller's domain instance already cleared, and a
valid-signature store whose second room row is malformed (type `"x"`,
capacity 7) makes it return `False` with the instance cleared and then
partially rebuilt with the first room — so a failed load is neither
always non-mutating nor always fully clearing. -/
theorem claim_C3_counterexample :
    (service_load_state dState1 DbFile.unreadable).1 = false ∧
    (service_load_state dState1 DbFile.unreadable).2 ≠ dState1 ∧
    (service_load_state dState1
      (DbFile.good [⟨"blue", "Blue", "office", 6⟩, ⟨"bad", "Bad", "x", 7⟩] [])).1 = false ∧
    (service_load_state dState1
        (DbFile.good [⟨"blue", "Blue", "office", 6⟩, ⟨"bad", "Bad", "x", 7⟩] [])).2 =
      ⟨[Office "Blue"], [], []⟩ := by
  decide

/-- Claim C3 (amended): a `load_state` that fails the existence or
signature precheck leaves the target instance unmodified; every other
failing `load_state` has already cleared the instance in place
(`service.py` lines 210–215) — an unreadable store leaves it fully
cleared, and a malformed room row leaves it cleared with exactly the
rooms read before that row rebuilt (a prefix of the room loop) and no
people. -/
theorem claim_C3_load_fail (d : Dojo) (f : DbFile)
    (hfail : (service_load_state d f).1 = false) :
    ((f = DbFile.absent ∨ f = DbFile.badMagic) → (service_load_state d f).2 = d) ∧
    (f = DbFile.unreadable → (service_load_state d f).2 = clearedDojo d) ∧
    (∀ rooms people, f = DbFile.good rooms people →
      (service_load_state d f).2.people = [] ∧
      ∃ n, load_rooms_loop (clearedDojo d) (rooms.take n) =
        (true, (service_load_state d f).2)) := by
  cases f with
  | absent =>
    refine ⟨fun _ => rfl, ?_, ?_⟩
    · intro h
      cases h
    · intro rooms people h
      cases h
  | badMagic =>
    refine ⟨fun _ => rfl, ?_, ?_⟩
    · intro h
      cases h
    · intro rooms people h
      cases h
  | unreadable =>
    refine ⟨?_, fun _ => rfl, ?_⟩
    · intro h
      rcases h with h | h <;> cases h
    · intro rooms people h
      cases h
  | good rooms people =>
    refine ⟨?_, ?_, ?_⟩
    · intro h
      rcases h with h | h <;> cases h
    · intro h
      cases h
    · intro rooms' people' h
      injection h with h1 h2
      subst h1
      subst h2
      cases hloop : load_rooms_loop (clearedDojo d) rooms with
      | mk b d1 =>
        cases b with
        | true =>
          have : (service_load_state d (DbFile.good rooms people)).1 = true := by
            show (match load_rooms_loop (clearedDojo d) rooms with
              | (false, d1) => ((false : Bool), d1)
              | (true, d1) => (true, people.foldl load_person d1)).1 = true
            rw [hloop]
          rw [this] at hfail
          cases hfail
        | false =>
          have hres : service_load_state d (DbFile.good rooms people) = (false, d1) := by
            show (match load_rooms_loop (clearedDojo d) rooms with
              | (false, d1) => ((false : Bool), d1)
              | (true, d1) => (true, people.foldl load_person d1)) = (false, d1)
            rw [hloop]
          constructor
          · rw [hres]
            have hp := load_rooms_loop_people rooms (clearedDojo d)
            rw [hloop] at hp
            exact hp
          · obtain ⟨n, hn⟩ := load_rooms_loop_false rooms (clearedDojo d) hloop
            exact ⟨n, by rw [hres]; exact hn⟩

/-- Witness for C3 (amended) at a concrete state and a valid-signature
store whose second room row is malformed. -/
theorem claim_C3_witness :
    (service_load_state dState1
      (DbFile.good [⟨"blue", "Blue", "office", 6⟩, ⟨"bad", "Bad", "x", 7⟩] [])).1 = false ∧
    (service_load_state dState1
      (DbFile.good [⟨"blue", "Blue", "office", 6⟩, ⟨"bad", "Bad", "x", 7⟩] [])).2.people = [] ∧
    ∃ n, load_rooms_loop (clearedDojo dState1)
        (([⟨"blue", "Blue", "office", 6⟩, ⟨"bad", "Bad", "x", 7⟩] : List DbRoomRow).take n) =
      (true, (service_load_state dState1
        (DbFile.good [⟨"blue", "Blue", "office", 6⟩, ⟨"bad", "Bad", "x", 7⟩] [])).2) :=
  ⟨by decide,
    (claim_C3_load_fail dState1
        (DbFile.good [⟨"blue", "Blue", "office", 6⟩, ⟨"bad", "Bad", "x", 7⟩] [])
        (by decide)).2.2 _ _ rfl⟩

/-- Claim C4 (counterexample): the office "Blue" maps to a row whose id is
the slug "blue", but the fellow assigned to it maps to a row whose
`office_id` holds the raw recorded name "Blue", which differs from the
slug of the assigned room — the foreign key is not the slug. -/
theorem claim_C4_counterexample :
    to_db_room ⟨"Blue", "office", 6, ["id1"]⟩ = some ⟨"blue", "Blue", "office", 6⟩ ∧
    to_db_person ⟨"Ann", "id1", "FELLOW", false, .name "Blue", .nil⟩ =
      some ⟨"id1", "Ann", "FELLOW", some false, some (.name "Blue"), none⟩ ∧
    some (Alloc.name "Blue") ≠ some (Alloc.name (slug "Blue")) := by
  decide

theorem fk_none_iff (a : Alloc) :
    (if a.truthy then some a else none) = none ↔ a.truthy = false := by
  cases h : a.truthy <;> simp [h]

theorem fk_some_of (a : Alloc) (h : a.truthy = true) :
    (if a.truthy then some a else none) = some a := by
  simp [h]

/-- Claim C4 (amended): each room maps to a row whose id is the slug of
its name; each person's `office_id` and `living_space_id` foreign keys
are null exactly when the matching assignment attribute is falsy, and
otherwise hold the raw recorded assignment value — the room's name
exactly as stored on the person (or the boolean `True` after a
reallocation), not the slug of that name. -/
theorem claim_C4_amended (r : Room) (p : Person)
    (hr : r.room_type = "office" ∨ r.room_type = "living_space")
    (hp : p.person_type = "STAFF" ∨ p.person_type = "FELLOW") :
    (∃ row, to_db_room r = some row ∧ row.id = slug r.name ∧ row.name = r.name) ∧
    (∃ prow, to_db_person p = some prow ∧
      (prow.office_id = none ↔ p.office_allocated.truthy = false) ∧
      (p.office_allocated.truthy = true → prow.office_id = some p.office_allocated) ∧
      (prow.living_space_id = none ↔ p.living_space_allocated.truthy = false) ∧
      (p.living_space_allocated.truthy = true →
        prow.living_space_id = some p.living_space_allocated)) := by
  constructor
  · rcases hr with h | h
    · refine ⟨⟨slug r.name, r.name, "office", 6⟩, ?_, rfl, rfl⟩
      simp [to_db_room, h]
    · refine ⟨⟨slug r.name, r.name, "living_space", 4⟩, ?_, rfl, rfl⟩
      simp [to_db_room, h]
  · rcases hp with h | h
    · refine ⟨⟨p.person_id, p.name, "STAFF", none,
          if p.office_allocated.truthy then some p.office_allocated else none,
          if p.living_space_allocated.truthy then some p.living_space_allocated
          else none⟩, ?_, fk_none_iff p.office_allocated, fk_some_of p.office_allocated,
          fk_none_iff p.living_space_allocated, fk_some_of p.living_space_allocated⟩
      simp [to_db_person, h]
    · refine ⟨⟨p.person_id, p.name, "FELLOW", some p.wants_accommodation,
          if p.office_allocated.truthy then some p.office_allocated else none,
          if p.living_space_allocated.truthy then some p.living_space_allocated
          else none⟩, ?_, fk_none_iff p.office_allocated, fk_some_of p.office_allocated,
          fk_none_iff p.living_space_allocated, fk_some_of p.living_space_allocated⟩
      simp [to_db_person, h]

/-- Witness for C4 (amended) on the "Blue" office and its occupant. -/
theorem claim_C4_witness :
    (Alloc.name "Blue").truthy = true ∧
    ((∃ row, to_db_room ⟨"Blue", "office", 6, ["id1"]⟩ = some row ∧
        row.id = slug "Blue" ∧ row.name = "Blue") ∧
      (∃ prow, to_db_person ⟨"Ann", "id1", "FELLOW", false, .name "Blue", .nil⟩ = some prow ∧
        (prow.office_id = none ↔ (Alloc.name "Blue").truthy = false) ∧
        ((Alloc.name "Blue").truthy = true → prow.office_id = some (Alloc.name "Blue")) ∧
        (prow.living_space_id = none ↔ (Alloc.nil).truthy = false) ∧
        ((Alloc.nil).truthy = true → prow.living_space_id = some Alloc.nil))) :=
  ⟨by decide, claim_C4_amended ⟨"Blue", "office", 6, ["id1"]⟩
    ⟨"Ann", "id1", "FELLOW", false, .name "Blue", .nil⟩ (Or.inl rfl) (Or.inr rfl)⟩

/-- Claim C2 (counterexample): a successful reallocation of Ann from
"Blue" to "Red" moves her id between the occupant lists, but her
`office_allocated` attribute ends up as the boolean `True`, not the
target room — the claim's "assignment field is set to the target room"
fails on the code. -/
theorem claim_C2_counterexample :
    (reallocate_person dState1 "id1" "Red").1 = true ∧
    (reallocate_person dState1 "id1" "Red").2.offices.map (fun r => r.occupants) =
      [[], ["id1"]] ∧
    findPerson (reallocate_person dState1 "id1" "Red").2 "id1" =
      some ⟨"Ann", "id1", "FELLOW", false, .flag true, .nil⟩ ∧
    Alloc.flag true ≠ Alloc.name "Red" := by
  decide

/-- Claim C2 (amended): a successful `reallocate_person` call (person
known, target found and eligible, target not full, target distinct from
the current same-kind room when one exists) removes the person's id from
the current same-kind room's occupants if there was one, adds it to the
target room's occupants, and sets the person's assignment attribute for
that kind to the boolean `True` (not to the target room); the removal and
the addition are both visible in the one resulting state, so partial
removal is never observable. -/
theorem claim_C2_amended (d : Dojo) (pid rname : String) {p : Person}
    {kind : RoomKind} {tIdx : Nat} (cur : Option Nat)
    (hp : findPerson d pid = some p)
    (ht : findTarget d p rname = .found kind tIdx)
    (hfull : ((kindList d kind).getD tIdx dRoom).occupants.length <
      ((kindList d kind).getD tIdx dRoom).capacity)
    (hcur : findCurrentIdx (kindList d kind) pid = cur)
    (htype : ((kindList d kind).getD tIdx dRoom).room_type = kindTypeStr kind)
    (hname : ∀ cIdx, cur = some cIdx →
      pyLower ((kindList d kind).getD cIdx dRoom).name ≠
        pyLower ((kindList d kind).getD tIdx dRoom).name)
    (hcount : ∀ cIdx, cur = some cIdx →
      ((kindList d kind).getD cIdx dRoom).occupants.count pid ≤ 1) :
    (reallocate_person d pid rname).1 = true ∧
    (∀ cIdx, cur = some cIdx →
      pid ∉ ((kindList (reallocate_person d pid rname).2 kind).getD cIdx dRoom).occupants) ∧
    pid ∈ ((kindList (reallocate_person d pid rname).2 kind).getD tIdx dRoom).occupants ∧
    ∃ p', findPerson (reallocate_person d pid rname).2 pid = some p' ∧
      fieldFor p' kind = Alloc.flag true := by
  cases cur with
  | some cIdx =>
    have hnm := hname cIdx rfl
    have hct := hcount cIdx rfl
    obtain ⟨hclt, hcmem, _⟩ := findCurrentIdx_some hcur
    obtain ⟨htlt, _, _, _⟩ := findTarget_found ht
    have hne : cIdx ≠ tIdx := fun he => hnm (by rw [he])
    have hsucc := reallocate_success_cur d pid rname hp ht hfull hcur hnm
    simp only [hsucc]
    have hkl := moveWithCurrent_kindList_self d kind tIdx cIdx p pid hne
    refine ⟨trivial, ?_, ?_, ?_⟩
    · intro c hc
      injection hc with h1
      subst h1
      rw [hkl, getD_set_ne _ tIdx cIdx _ _ (Ne.symm hne), getD_set_self _ _ _ _ hclt]
      have h1 : ((kindList d kind).getD cIdx dRoom).occupants.count pid = 1 :=
        le_antisymm hct (List.count_pos_iff.mpr hcmem)
      have h0 : (((kindList d kind).getD cIdx dRoom).occupants.erase pid).count pid = 0 := by
        rw [List.count_erase_self, h1]
      exact List.count_eq_zero.mp h0
    · rw [hkl, getD_set_self _ _ _ _ (by simpa using htlt)]
      exact List.mem_append_right _ (List.mem_singleton_self pid)
    · have hid2 : (setFieldFor (clearFieldFor p ((kindList d kind).getD cIdx dRoom).room_type)
          ((kindList d kind).getD tIdx dRoom).room_type).person_id = p.person_id := by
        rw [setFieldFor_id, clearFieldFor_id]
      refine ⟨setFieldFor (clearFieldFor p ((kindList d kind).getD cIdx dRoom).room_type)
          ((kindList d kind).getD tIdx dRoom).room_type, ?_, ?_⟩
      · show (moveWithCurrent d kind tIdx cIdx p pid).people.find?
          (fun q => q.person_id == pid) = _
        rw [moveWithCurrent_people]
        exact findPerson_updatePerson hp hid2
      · rw [htype]
        exact setFieldFor_field _ kind
  | none =>
    obtain ⟨htlt, _, _, _⟩ := findTarget_found ht
    have hsucc := reallocate_success_nocur d pid rname hp ht hfull hcur
    simp only [hsucc]
    refine ⟨trivial, ?_, ?_, ?_⟩
    · intro c hc
      exact Option.noConfusion hc
    · rw [moveNoCurrent_kindList_self, getD_set_self _ _ _ _ (by simpa using htlt)]
      exact List.mem_append_right _ (List.mem_singleton_self pid)
    · refine ⟨setFieldFor p ((kindList d kind).getD tIdx dRoom).room_type, ?_, ?_⟩
      · show (moveNoCurrent d kind tIdx p pid).people.find?
          (fun q => q.person_id == pid) = _
        rw [moveNoCurrent_people]
        exact findPerson_updatePerson hp (setFieldFor_id p _)
      · rw [htype]
        exact setFieldFor_field _ kind

/-- Witness for C2 (amended): Ann moves from "Blue" to "Red". -/
theorem claim_C2_witness :
    findPerson dState1 "id1" = some ⟨"Ann", "id1", "FELLOW", false, .name "Blue", .nil⟩ ∧
    (reallocate_person dState1 "id1" "Red").1 = true ∧
    "id1" ∉ ((kindList (reallocate_person dState1 "id1" "Red").2 .office).getD 0 dRoom).occupants ∧
    "id1" ∈ ((kindList (reallocate_person dState1 "id1" "Red").2 .office).getD 1 dRoom).occupants ∧
    ∃ p', findPerson (reallocate_person dState1 "id1" "Red").2 "id1" = some p' ∧
      fieldFor p' .office = Alloc.flag true := by
  have h := @claim_C2_amended dState1 "id1" "Red"
    ⟨"Ann", "id1", "FELLOW", false, .name "Blue", .nil⟩ RoomKind.office 1 (some 0)
    (by decide) (by decide) (by decide) (by decide) (by decide)
    (fun c hc => by injection hc with h1; subst h1; decide)
    (fun c hc => by injection hc with h1; subst h1; decide)
  exact ⟨by decide, h.1, h.2.1 0 rfl, h.2.2.1, h.2.2.2⟩

/-! ### Execution lemmas for `add_occupant`, the allocators and `add_person` -/

theorem add_occupant_cases (r : Room) (pid : String) :
    (r.add_occupant pid).2 = r ∨
    ((r.add_occupant pid).2 = { r with occupants := r.occupants ++ [pid] } ∧
      pid ≠ "" ∧ pid ∉ r.occupants ∧ r.occupants.length < r.capacity) := by
  unfold Room.add_occupant
  by_cases h1 : pid == ""
  · rw [if_pos h1]
    exact Or.inl rfl
  · rw [if_neg h1]
    by_cases h2 : r.occupants.contains pid
    · rw [if_pos h2]
      exact Or.inl rfl
    · rw [if_neg h2]
      by_cases h3 : r.is_full
      · rw [if_pos h3]
        exact Or.inl rfl
      · rw [if_neg h3]
        refine Or.inr ⟨rfl, by simpa using h1, by simpa using h2, ?_⟩
        unfold Room.is_full at h3
        exact Nat.lt_of_not_le (by simpa using h3)

theorem add_occupant_fields (r : Room) (pid : String) :
    (r.add_occupant pid).2.name = r.name ∧
    (r.add_occupant pid).2.room_type = r.room_type ∧
    (r.add_occupant pid).2.capacity = r.capacity := by
  rcases add_occupant_cases r pid with h | ⟨h, _⟩ <;> rw [h] <;> exact ⟨rfl, rfl, rfl⟩

theorem add_occupant_sub (r : Room) (pid x : String) (hx : x ≠ pid)
    (hmem : x ∈ (r.add_occupant pid).2.occupants) : x ∈ r.occupants := by
  rcases add_occupant_cases r pid with h | ⟨h, _⟩ <;> rw [h] at hmem
  · exact hmem
  · rcases List.mem_append.mp hmem with hm | hm
    · exact hm
    · exact absurd (List.mem_singleton.mp hm) hx

theorem allocate_office_spec (rooms : List Room) (p : Person) (k : Nat) :
    allocate_office rooms p k = (rooms, p) ∨
    ∃ idx, idx < rooms.length ∧ ((rooms.getD idx dRoom).is_full = false) ∧
      allocate_office rooms p k =
        (rooms.set idx ((rooms.getD idx dRoom).add_occupant p.person_id).2,
         { p with office_allocated := .name ((rooms.getD idx dRoom).name) }) := by
  unfold allocate_office
  cases hav : availableIdxs rooms with
  | nil => exact Or.inl rfl
  | cons a rest =>
    right
    refine ⟨(a :: rest).getD (k % (a :: rest).length) 0, ?_, ?_, rfl⟩
    all_goals
      have hmem : (a :: rest).getD (k % (a :: rest).length) 0 ∈ availableIdxs rooms := by
        rw [hav]
        exact getD_mem _ _ _ (Nat.mod_lt _ (Nat.succ_pos _))
      unfold availableIdxs at hmem
      have hmem' := List.mem_filter.mp hmem
      have hrange := List.mem_range.mp hmem'.1
    · exact hrange
    · have := hmem'.2
      rw [List.getD_eq_getElem _ _ hrange] at this ⊢
      simpa using this

theorem allocate_living_spec (rooms : List Room) (p : Person) (k : Nat) :
    allocate_living_space rooms p k = (rooms, p) ∨
    ∃ idx, idx < rooms.length ∧ ((rooms.getD idx dRoom).is_full = false) ∧
      allocate_living_space rooms p k =
        (rooms.set idx ((rooms.getD idx dRoom).add_occupant p.person_id).2,
         { p with living_space_allocated := .name ((rooms.getD idx dRoom).name) }) := by
  unfold allocate_living_space
  cases hav : availableIdxs rooms with
  | nil => exact Or.inl rfl
  | cons a rest =>
    right
    refine ⟨(a :: rest).getD (k % (a :: rest).length) 0, ?_, ?_, rfl⟩
    all_goals
      have hmem : (a :: rest).getD (k % (a :: rest).length) 0 ∈ availableIdxs rooms := by
        rw [hav]
        exact getD_mem _ _ _ (Nat.mod_lt _ (Nat.succ_pos _))
      unfold availableIdxs at hmem
      have hmem' := List.mem_filter.mp hmem
      have hrange := List.mem_range.mp hmem'.1
    · exact hrange
    · have := hmem'.2
      rw [List.getD_eq_getElem _ _ hrange] at this ⊢
      simpa using this

theorem allocate_office_keeps (rooms : List Room) (p : Person) (k : Nat) :
    (allocate_office rooms p k).2.person_id = p.person_id ∧
    (allocate_office rooms p k).2.person_type = p.person_type ∧
    (allocate_office rooms p k).2.wants_accommodation = p.wants_accommodation ∧
    (allocate_office rooms p k).2.living_space_allocated = p.living_space_allocated ∧
    (allocate_office rooms p k).2.name = p.name := by
  rcases allocate_office_spec rooms p k with h | ⟨idx, _, _, h⟩ <;> rw [h] <;>
    exact ⟨rfl, rfl, rfl, rfl, rfl⟩

theorem allocate_living_keeps (rooms : List Room) (p : Person) (k : Nat) :
    (allocate_living_space rooms p k).2.person_id = p.person_id ∧
    (allocate_living_space rooms p k).2.person_type = p.person_type ∧
    (allocate_living_space rooms p k).2.wants_accommodation = p.wants_accommodation ∧
    (allocate_living_space rooms p k).2.office_allocated = p.office_allocated ∧
    (allocate_living_space rooms p k).2.name = p.name := by
  rcases allocate_living_spec rooms p k with h | ⟨idx, _, _, h⟩ <;> rw [h] <;>
    exact ⟨rfl, rfl, rfl, rfl, rfl⟩

theorem add_person_inv (d : Dojo) (n pt wa fresh : String) (kO kL : Nat) :
    (∃ b, add_person d n pt wa fresh kO kL = (b, d)) ∨
    ∃ p0, (p0 = mkFellow n wa fresh ∨ p0 = mkStaff n fresh) ∧
      ((∃ o, add_person d n pt wa fresh kO kL =
          (o, { d with offices := (allocate_office d.offices p0 kO).1,
                       people := d.people ++ [(allocate_office d.offices p0 kO).2] })) ∨
        ((pyUpper pt == "FELLOW" &&
            (allocate_office d.offices p0 kO).2.wants_accommodation) = true ∧
          p0 = mkFellow n wa fresh ∧
          add_person d n pt wa fresh kO kL =
            (.ret true,
              { d with offices := (allocate_office d.offices p0 kO).1,
                       living_spaces :=
                         (allocate_living_space d.living_spaces
                           (allocate_office d.offices p0 kO).2 kL).1,
                       people := d.people ++
                         [(allocate_living_space d.living_spaces
                             (allocate_office d.offices p0 kO).2 kL).2] }))) := by
  simp only [add_person]
  by_cases h1 : !(pyUpper pt == "FELLOW" || pyUpper pt == "STAFF")
  · rw [if_pos h1]
    exact Or.inl ⟨_, rfl⟩
  · rw [if_neg h1]
    by_cases h2 : pyUpper pt == "STAFF" && pyUpper wa == "Y"
    · rw [if_pos h2]
      exact Or.inl ⟨_, rfl⟩
    · rw [if_neg h2]
      right
      refine ⟨if pyUpper pt == "FELLOW" then mkFellow n wa fresh else mkStaff n fresh,
        ?_, ?_⟩
      · by_cases hf : pyUpper pt == "FELLOW"
        · exact Or.inl (if_pos hf)
        · exact Or.inr (if_neg hf)
      · by_cases h3 : pyBlank n
        · rw [if_pos h3]
          exact Or.inl ⟨_, rfl⟩
        · rw [if_neg h3]
          by_cases h4 : pyUpper pt == "FELLOW" &&
              (allocate_office d.offices
                (if pyUpper pt == "FELLOW" then mkFellow n wa fresh
                 else mkStaff n fresh) kO).2.wants_accommodation
          · rw [if_pos h4]
            have hfl : (pyUpper pt == "FELLOW") = true := (Bool.and_eq_true _ _ |>.mp h4).1
            exact Or.inr ⟨h4, if_pos hfl, rfl⟩
          · rw [if_neg h4]
            exact Or.inl ⟨_, rfl⟩

/-! ### Preservation of the capacity invariant (claim C1) -/

theorem forall_mem_set {α : Type} {P : α → Prop} {l : List α} {i : Nat} {x : α}
    (hl : ∀ r ∈ l, P r) (hx : P x) : ∀ r ∈ l.set i x, P r := by
  intro r hr
  rcases List.mem_or_eq_of_mem_set hr with h | rfl
  · exact hl r h
  · exact hx

theorem roomOk_add_occupant {r : Room} {t : String} {c : Nat}
    (h : r.room_type = t ∧ r.capacity = c ∧ r.occupants.length ≤ c) (pid : String) :
    (r.add_occupant pid).2.room_type = t ∧ (r.add_occupant pid).2.capacity = c ∧
      (r.add_occupant pid).2.occupants.length ≤ c := by
  rcases add_occupant_cases r pid with he | ⟨he, _, _, hlt⟩ <;> rw [he]
  · exact h
  · refine ⟨h.1, h.2.1, ?_⟩
    rw [List.length_append]
    have hc := h.2.1
    simp only [List.length_singleton]
    omega

theorem kind_of_capOK {d : Dojo} (h : CapOK d) (k : RoomKind) :
    ∀ r ∈ kindList d k, r.room_type = kindTypeStr k ∧ r.capacity = capFor k ∧
      r.occupants.length ≤ capFor k := by
  cases k
  · exact h.1
  · exact h.2

theorem capOK_of_kind {d : Dojo}
    (h : ∀ k : RoomKind, ∀ r ∈ kindList d k, r.room_type = kindTypeStr k ∧
      r.capacity = capFor k ∧ r.occupants.length ≤ capFor k) : CapOK d :=
  ⟨h .office, h .living⟩

theorem capOK_create_loop (rt : String) :
    ∀ (names : List String) (d : Dojo) (created : Bool),
      CapOK d → CapOK (create_room_loop rt d names created).2
  | [], _, _, h => h
  | n :: rest, d, created, h => by
    unfold create_room_loop
    by_cases h1 : n == "" || pyBlank n
    · rw [if_pos h1]
      exact capOK_create_loop rt rest d created h
    · rw [if_neg h1]
      by_cases h2 : roomNameExists d n
      · rw [if_pos h2]
        exact capOK_create_loop rt rest d created h
      · rw [if_neg h2]
        by_cases h3 : rt == "office"
        · rw [if_pos h3]
          refine capOK_create_loop rt rest _ true ⟨?_, h.2⟩
          intro r hr
          rcases List.mem_append.mp hr with hm | hm
          · exact h.1 r hm
          · rw [List.mem_singleton.mp hm]
            exact ⟨rfl, rfl, by simp [Office]⟩
        · rw [if_neg h3]
          refine capOK_create_loop rt rest _ true ⟨h.1, ?_⟩
          intro r hr
          rcases List.mem_append.mp hr with hm | hm
          · exact h.2 r hm
          · rw [List.mem_singleton.mp hm]
            exact ⟨rfl, rfl, by simp [LivingSpace]⟩

theorem capOK_create (d : Dojo) (rt : String) (ns : List String) (h : CapOK d) :
    CapOK (create_room d rt ns).2 := by
  unfold create_room
  by_cases hv : rt == "office" || rt == "living_space"
  · rw [if_pos hv]
    exact capOK_create_loop rt ns d false h
  · rw [if_neg hv]
    exact h

theorem capOK_add (d : Dojo) (n pt wa fresh : String) (kO kL : Nat) (h : CapOK d) :
    CapOK (add_person d n pt wa fresh kO kL).2 := by
  rcases add_person_inv d n pt wa fresh kO kL with ⟨b, he⟩ | ⟨p0, _, hcase⟩
  · rw [he]
    exact h
  · have hoff : ∀ r ∈ (allocate_office d.offices p0 kO).1,
        r.room_type = "office" ∧ r.capacity = 6 ∧ r.occupants.length ≤ 6 := by
      rcases allocate_office_spec d.offices p0 kO with hs | ⟨idx, hlt, _, hs⟩
      · rw [hs]
        exact h.1
      · rw [hs]
        exact forall_mem_set h.1
          (roomOk_add_occupant (h.1 _ (getD_mem _ _ dRoom hlt)) _)
    rcases hcase with ⟨o, he⟩ | ⟨hfw, hmk, he⟩
    · rw [he]
      exact ⟨hoff, h.2⟩
    · rw [he]
      refine ⟨hoff, ?_⟩
      rcases allocate_living_spec d.living_spaces
          (allocate_office d.offices p0 kO).2 kL with hs | ⟨idx, hlt, _, hs⟩
      · rw [hs]
        exact h.2
      · rw [hs]
        exact forall_mem_set h.2
          (roomOk_add_occupant (h.2 _ (getD_mem _ _ dRoom hlt)) _)

theorem capOK_realloc (d : Dojo) (pid rname : String) (h : CapOK d) :
    CapOK (reallocate_person d pid rname).2 := by
  rcases reallocate_inv d pid rname with he | ⟨p, kind, tIdx, hp, ht, hfull, hsub⟩
  · rw [he]
    exact h
  · obtain ⟨htlt, _, _, _⟩ := findTarget_found ht
    rcases hsub with ⟨cIdx, hcur, hname, he⟩ | ⟨hcur, he⟩
    · rw [he]
      obtain ⟨hclt, hcmem, _⟩ := findCurrentIdx_some hcur
      have hne : cIdx ≠ tIdx := fun hh => hname (by rw [hh])
      apply capOK_of_kind
      intro k r hr
      by_cases hk : k = kind
      · subst hk
        rw [moveWithCurrent_kindList_self d k tIdx cIdx p pid hne] at hr
        have hA := kind_of_capOK h k _ (getD_mem _ cIdx dRoom hclt)
        have hB := kind_of_capOK h k _ (getD_mem _ tIdx dRoom htlt)
        rcases List.mem_or_eq_of_mem_set hr with hr1 | rfl
        · rcases List.mem_or_eq_of_mem_set hr1 with hr2 | rfl
          · exact kind_of_capOK h k r hr2
          · exact ⟨hA.1, hA.2.1,
              le_trans ((List.erase_sublist pid _).length_le) hA.2.2⟩
        · refine ⟨hB.1, hB.2.1, ?_⟩
          rw [List.length_append]
          have hc := hB.2.1
          simp only [List.length_singleton]
          omega
      · rw [moveWithCurrent_kindList_other d tIdx cIdx p pid hk] at hr
        exact kind_of_capOK h k r hr
    · rw [he]
      apply capOK_of_kind
      intro k r hr
      by_cases hk : k = kind
      · subst hk
        rw [moveNoCurrent_kindList_self d k tIdx p pid] at hr
        have hB := kind_of_capOK h k _ (getD_mem _ tIdx dRoom htlt)
        rcases List.mem_or_eq_of_mem_set hr with hr1 | rfl
        · exact kind_of_capOK h k r hr1
        · refine ⟨hB.1, hB.2.1, ?_⟩
          rw [List.length_append]
          have hc := hB.2.1
          simp only [List.length_singleton]
          omega
      · rw [moveNoCurrent_kindList_other d tIdx p pid hk] at hr
        exact kind_of_capOK h k r hr

theorem capOK_applyOp (d : Dojo) (op : Op) (h : CapOK d) : CapOK (applyOp d op) := by
  cases op with
  | createRoom rt ns => exact capOK_create d rt ns h
  | addPerson n pt wa fresh kO kL => exact capOK_add d n pt wa fresh kO kL h
  | reallocatePerson pid rn => exact capOK_realloc d pid rn h

theorem capOK_foldl : ∀ (ops : List Op) (d : Dojo), CapOK d → CapOK (ops.foldl applyOp d)
  | [], _, h => h
  | op :: ops, d, h => capOK_foldl ops _ (capOK_applyOp d op h)

theorem capOK_empty : CapOK emptyDojo :=
  ⟨fun r hr => absurd hr (List.not_mem_nil r), fun r hr => absurd hr (List.not_mem_nil r)⟩

/-- Claim C1: after any sequence of `createRoom`, `addPerson` and
`reallocatePerson` calls starting from the empty domain instance, every
office has capacity 6 and at most 6 occupants, and every living space has
capacity 4 and at most 4 occupants — no room ever exceeds its fixed
capacity.  The result covers every prefix, hence the state after each
call. -/
theorem claim_C1_capacity (ops : List Op) :
    (∀ r ∈ (runOps ops).offices, r.capacity = 6 ∧ r.occupants.length ≤ 6) ∧
    (∀ r ∈ (runOps ops).living_spaces, r.capacity = 4 ∧ r.occupants.length ≤ 4) := by
  have h : CapOK (runOps ops) := capOK_foldl ops emptyDojo capOK_empty
  exact ⟨fun r hr => ⟨(h.1 r hr).2.1, (h.1 r hr).2.2⟩,
    fun r hr => ⟨(h.2 r hr).2.1, (h.2 r hr).2.2⟩⟩

/-! ### Preservation of the base invariant (claims C8, C5) -/

theorem nodup_append_singleton {α : Type} {l : List α} {a : α}
    (hn : l.Nodup) (ha : a ∉ l) : (l ++ [a]).Nodup := by
  rw [List.nodup_append]
  refine ⟨hn, List.nodup_singleton a, ?_⟩
  intro x hx hxa
  rw [List.mem_singleton.mp hxa] at hx
  exact ha hx

theorem create_room_loop_pres {P : Dojo → Prop} (rt : String)
    (hstepO : ∀ d n, P d → roomNameExists d n = false →
        P { d with offices := d.offices ++ [Office n] })
    (hstepL : ∀ d n, P d → roomNameExists d n = false →
        P { d with living_spaces := d.living_spaces ++ [LivingSpace n] }) :
    ∀ (ns : List String) (d : Dojo) (c : Bool), P d → P (create_room_loop rt d ns c).2
  | [], _, _, h => h
  | n :: rest, d, c, h => by
    unfold create_room_loop
    by_cases h1 : n == "" || pyBlank n
    · rw [if_pos h1]
      exact create_room_loop_pres rt hstepO hstepL rest d c h
    · rw [if_neg h1]
      by_cases h2 : roomNameExists d n
      · rw [if_pos h2]
        exact create_room_loop_pres rt hstepO hstepL rest d c h
      · rw [if_neg h2]
        by_cases h3 : rt == "office"
        · rw [if_pos h3]
          exact create_room_loop_pres rt hstepO hstepL rest _ true
            (hstepO d n h (Bool.eq_false_iff.mpr h2))
        · rw [if_neg h3]
          exact create_room_loop_pres rt hstepO hstepL rest _ true
            (hstepL d n h (Bool.eq_false_iff.mpr h2))

theorem create_room_pres {P : Dojo → Prop} (d : Dojo) (rt : String) (ns : List String)
    (hstepO : ∀ d n, P d → roomNameExists d n = false →
        P { d with offices := d.offices ++ [Office n] })
    (hstepL : ∀ d n, P d → roomNameExists d n = false →
        P { d with living_spaces := d.living_spaces ++ [LivingSpace n] })
    (h : P d) : P (create_room d rt ns).2 := by
  unfold create_room
  by_cases hv : rt == "office" || rt == "living_space"
  · rw [if_pos hv]
    exact create_room_loop_pres rt hstepO hstepL ns d false h
  · rw [if_neg hv]
    exact h

theorem invBase_append_office {d : Dojo} {n : String} (h : InvBase d) :
    InvBase { d with offices := d.offices ++ [Office n] } := by
  obtain ⟨hcap, hids, hocc, hstaff⟩ := h
  refine ⟨⟨?_, hcap.2⟩, hids, ?_, ?_⟩
  · intro r hr
    rcases List.mem_append.mp hr with hm | hm
    · exact hcap.1 r hm
    · rw [List.mem_singleton.mp hm]
      exact ⟨rfl, rfl, by simp [Office]⟩
  · intro r hr x hx
    have hsplit : r ∈ d.offices ++ d.living_spaces ∨ r = Office n := by
      rcases List.mem_append.mp hr with hm | hm
      · rcases List.mem_append.mp hm with hm2 | hm2
        · exact Or.inl (List.mem_append_left _ hm2)
        · exact Or.inr (List.mem_singleton.mp hm2)
      · exact Or.inl (List.mem_append_right _ hm)
    rcases hsplit with hm | rfl
    · exact hocc r hm x hx
    · exact absurd hx (List.not_mem_nil x)
  · exact hstaff

theorem invBase_append_living {d : Dojo} {n : String} (h : InvBase d) :
    InvBase { d with living_spaces := d.living_spaces ++ [LivingSpace n] } := by
  obtain ⟨hcap, hids, hocc, hstaff⟩ := h
  refine ⟨⟨hcap.1, ?_⟩, hids, ?_, ?_⟩
  · intro r hr
    rcases List.mem_append.mp hr with hm | hm
    · exact hcap.2 r hm
    · rw [List.mem_singleton.mp hm]
      exact ⟨rfl, rfl, by simp [LivingSpace]⟩
  · intro r hr x hx
    have hsplit : r ∈ d.offices ++ d.living_spaces ∨ r = LivingSpace n := by
      rcases List.mem_append.mp hr with hm | hm
      · exact Or.inl (List.mem_append_left _ hm)
      · rcases List.mem_append.mp hm with hm2 | hm2
        · exact Or.inl (List.mem_append_right _ hm2)
        · exact Or.inr (List.mem_singleton.mp hm2)
    rcases hsplit with hm | rfl
    · exact hocc r hm x hx
    · exact absurd hx (List.not_mem_nil x)
  · intro q hq hSt
    refine ⟨(hstaff q hq hSt).1, ?_⟩
    intro r hr
    rcases List.mem_append.mp hr with hm | hm
    · exact (hstaff q hq hSt).2 r hm
    · rw [List.mem_singleton.mp hm]
      exact List.not_mem_nil _

theorem invBase_create (d : Dojo) (rt : String) (ns : List String) (h : InvBase d) :
    InvBase (create_room d rt ns).2 :=
  create_room_pres d rt ns (fun _ _ hP _ => invBase_append_office hP)
    (fun _ _ hP _ => invBase_append_living hP) h

theorem invBase_add (d : Dojo) (n pt wa fresh : String) (kO kL : Nat)
    (h : InvBase d) (hf1 : fresh ≠ "")
    (hf2 : ∀ q ∈ d.people, q.person_id ≠ fresh) :
    InvBase (add_person d n pt wa fresh kO kL).2 := by
  obtain ⟨hcap, hids, hocc, hstaff⟩ := h
  have hcap' := capOK_add d n pt wa fresh kO kL hcap
  rcases add_person_inv d n pt wa fresh kO kL with ⟨b, he⟩ | ⟨p0, hmk, hcase⟩
  · rw [he]
    exact ⟨hcap, hids, hocc, hstaff⟩
  · have hp0id : p0.person_id = fresh := by rcases hmk with rfl | rfl <;> rfl
    have hp0liv : p0.living_space_allocated = Alloc.nil := by
      rcases hmk with rfl | rfl <;> rfl
    have hkeep := allocate_office_keeps d.offices p0 kO
    have hp1id : (allocate_office d.offices p0 kO).2.person_id = fresh := by
      rw [hkeep.1, hp0id]
    have hp1liv : (allocate_office d.offices p0 kO).2.living_space_allocated =
        Alloc.nil := by
      rw [hkeep.2.2.2.1, hp0liv]
    have hfreshmap : fresh ∉ d.people.map Person.person_id := by
      intro hmem
      obtain ⟨q, hq, hqe⟩ := List.mem_map.mp hmem
      exact hf2 q hq hqe
    have hooff : ∀ r ∈ (allocate_office d.offices p0 kO).1, ∀ x ∈ r.occupants,
        (∃ q ∈ d.people, q.person_id = x) ∨ x = fresh := by
      rcases allocate_office_spec d.offices p0 kO with hs | ⟨idx, hlt, _, hs⟩
      · rw [hs]
        intro r hr x hx
        exact Or.inl (hocc r (List.mem_append_left _ hr) x hx)
      · rw [hs]
        intro r hr x hx
        rcases List.mem_or_eq_of_mem_set hr with hm | rfl
        · exact Or.inl (hocc r (List.mem_append_left _ hm) x hx)
        · by_cases hxf : x = fresh
          · exact Or.inr hxf
          · have hxm : x ∈ (d.offices.getD idx dRoom).occupants :=
              add_occupant_sub _ _ _ (by rw [hp0id]; exact hxf) hx
            exact Or.inl
              (hocc _ (List.mem_append_left _ (getD_mem _ _ dRoom hlt)) x hxm)
    rcases hcase with ⟨o, he⟩ | ⟨hfw, hmkF, he⟩
    · -- office-only path (also the exception path)
      rw [he] at hcap' ⊢
      refine ⟨hcap', ⟨?_, ?_⟩, ?_, ?_⟩
      · show (List.map Person.person_id
          (d.people ++ [(allocate_office d.offices p0 kO).2])).Nodup
        rw [List.map_append]
        show (d.people.map Person.person_id ++
          [(allocate_office d.offices p0 kO).2.person_id]).Nodup
        rw [hp1id]
        exact nodup_append_singleton hids.1 hfreshmap
      · intro q hq
        rcases List.mem_append.mp hq with hq | hq
        · exact hids.2 q hq
        · rw [List.mem_singleton.mp hq, hp1id]
          exact hf1
      · intro r hr x hx
        rcases List.mem_append.mp hr with hro | hrl
        · rcases hooff r hro x hx with ⟨q, hq, hqe⟩ | rfl
          · exact ⟨q, List.mem_append_left _ hq, hqe⟩
          · exact ⟨_, List.mem_append_right _ (List.mem_singleton_self _), hp1id⟩
        · obtain ⟨q, hq, hqe⟩ := hocc r (List.mem_append_right _ hrl) x hx
          exact ⟨q, List.mem_append_left _ hq, hqe⟩
      · intro q hq hSt
        rcases List.mem_append.mp hq with hq | hq
        · exact hstaff q hq hSt
        · rw [List.mem_singleton.mp hq]
          refine ⟨hp1liv, ?_⟩
          intro r hr hmem
          rw [hp1id] at hmem
          obtain ⟨q0, hq0, hq0e⟩ := hocc r (List.mem_append_right _ hr) _ hmem
          exact hf2 q0 hq0 hq0e
    · -- fellow-with-accommodation path
      have hp0fel : p0 = mkFellow n wa fresh := hmkF
      have hkeepL := allocate_living_keeps d.living_spaces
        (allocate_office d.offices p0 kO).2 kL
      have hp2id : (allocate_living_space d.living_spaces
          (allocate_office d.offices p0 kO).2 kL).2.person_id = fresh := by
        rw [hkeepL.1, hp1id]
      have hp2typ : (allocate_living_space d.living_spaces
          (allocate_office d.offices p0 kO).2 kL).2.person_type = "FELLOW" := by
        rw [hkeepL.2.1, hkeep.2.1, hp0fel]
        rfl
      have holiv : ∀ r ∈ (allocate_living_space d.living_spaces
            (allocate_office d.offices p0 kO).2 kL).1, ∀ x ∈ r.occupants,
          (∃ q ∈ d.people, q.person_id = x) ∨ x = fresh := by
        rcases allocate_living_spec d.living_spaces
            (allocate_office d.offices p0 kO).2 kL with hs | ⟨idx, hlt, _, hs⟩
        · rw [hs]
          intro r hr x hx
          exact Or.inl (hocc r (List.mem_append_right _ hr) x hx)
        · rw [hs]
          intro r hr x hx
          rcases List.mem_or_eq_of_mem_set hr with hm | rfl
          · exact Or.inl (hocc r (List.mem_append_right _ hm) x hx)
          · by_cases hxf : x = fresh
            · exact Or.inr hxf
            · have hxm : x ∈ (d.living_spaces.getD idx dRoom).occupants :=
                add_occupant_sub _ _ _ (by rw [hp1id]; exact hxf) hx
              exact Or.inl
                (hocc _ (List.mem_append_right _ (getD_mem _ _ dRoom hlt)) x hxm)
      rw [he] at hcap' ⊢
      refine ⟨hcap', ⟨?_, ?_⟩, ?_, ?_⟩
      · show (List.map Person.person_id (d.people ++ [(allocate_living_space
          d.living_spaces (allocate_office d.offices p0 kO).2 kL).2])).Nodup
        rw [List.map_append]
        show (d.people.map Person.person_id ++
          [(allocate_living_space d.living_spaces
            (allocate_office d.offices p0 kO).2 kL).2.person_id]).Nodup
        rw [hp2id]
        exact nodup_append_singleton hids.1 hfreshmap
      · intro q hq
        rcases List.mem_append.mp hq with hq | hq
        · exact hids.2 q hq
        · rw [List.mem_singleton.mp hq, hp2id]
          exact hf1
      · intro r hr x hx
        rcases List.mem_append.mp hr with hro | hrl
        · rcases hooff r hro x hx with ⟨q, hq, hqe⟩ | rfl
          · exact ⟨q, List.mem_append_left _ hq, hqe⟩
          · exact ⟨_, List.mem_append_right _ (List.mem_singleton_self _), hp2id⟩
        · rcases holiv r hrl x hx with ⟨q, hq, hqe⟩ | rfl
          · exact ⟨q, List.mem_append_left _ hq, hqe⟩
          · exact ⟨_, List.mem_append_right _ (List.mem_singleton_self _), hp2id⟩
      · intro q hq hSt
        rcases List.mem_append.mp hq with hq | hq
        · refine ⟨(hstaff q hq hSt).1, ?_⟩
          intro r hr hmem
          have hqfresh : q.person_id ≠ fresh := hf2 q hq
          rcases allocate_living_spec d.living_spaces
              (allocate_office d.offices p0 kO).2 kL with hs | ⟨idx, hlt, _, hs⟩
          · rw [hs] at hr
            exact (hstaff q hq hSt).2 r hr hmem
          · rw [hs] at hr
            rcases List.mem_or_eq_of_mem_set hr with hm | rfl
            · exact (hstaff q hq hSt).2 r hm hmem
            · have hxm : q.person_id ∈ (d.living_spaces.getD idx dRoom).occupants :=
                add_occupant_sub _ _ _ (by rw [hp1id]; exact hqfresh) hmem
              exact (hstaff q hq hSt).2 _ (getD_mem _ _ dRoom hlt) hxm
        · rw [List.mem_singleton.mp hq] at hSt
          rw [hp2typ] at hSt
          exact absurd hSt (by decide)

theorem invBase_realloc (d : Dojo) (pid rname : String) (h : InvBase d) :
    InvBase (reallocate_person d pid rname).2 := by
  obtain ⟨hcap, hids, hocc, hstaff⟩ := h
  have hcap' := capOK_realloc d pid rname hcap
  rcases reallocate_inv d pid rname with he | ⟨p, kind, tIdx, hp, ht, hfull, hsub⟩
  · rw [he]
    exact ⟨hcap, hids, hocc, hstaff⟩
  · obtain ⟨hpmem, hpid⟩ := findPerson_mem hp
    obtain ⟨htlt, _, _, helig⟩ := findTarget_found ht
    have hpid_ne : pid ≠ "" := by
      rw [← hpid]
      exact hids.2 p hpmem
    have hIds : ∀ p2 : Person, p2.person_id = pid →
        ((updatePerson d.people pid p2).map Person.person_id).Nodup ∧
        ∀ q ∈ updatePerson d.people pid p2, q.person_id ≠ "" := by
      intro p2 hp2
      constructor
      · rw [updatePerson_id_map hp2]
        exact hids.1
      · intro q hq
        rcases mem_updatePerson hq with ⟨rfl, _⟩ | ⟨hq, _⟩
        · rw [hp2]
          exact hpid_ne
        · exact hids.2 q hq
    have hOwner : ∀ p2 : Person, p2.person_id = pid → ∀ x,
        (∃ q ∈ d.people, q.person_id = x) →
        ∃ q ∈ updatePerson d.people pid p2, q.person_id = x := by
      intro p2 hp2 x hx
      obtain ⟨q, hq, hqe⟩ := hx
      have hxm : x ∈ (updatePerson d.people pid p2).map Person.person_id := by
        rw [updatePerson_id_map hp2]
        exact List.mem_map.mpr ⟨q, hq, hqe⟩
      obtain ⟨q', hq', hq'e⟩ := List.mem_map.mp hxm
      exact ⟨q', hq', hq'e⟩
    rcases hsub with ⟨cIdx, hcur, hname, he⟩ | ⟨hcur, he⟩
    · -- move with a current room
      obtain ⟨hclt, hcmem, _⟩ := findCurrentIdx_some hcur
      have hne : cIdx ≠ tIdx := fun hh => hname (by rw [hh])
      have hSrc : ∀ (k : RoomKind) r,
          r ∈ kindList (moveWithCurrent d kind tIdx cIdx p pid) k →
          ∀ x ∈ r.occupants, (∃ r0 ∈ kindList d k, x ∈ r0.occupants) ∨ x = pid := by
        intro k r hr x hx
        by_cases hk : k = kind
        · subst hk
          rw [moveWithCurrent_kindList_self d k tIdx cIdx p pid hne] at hr
          rcases List.mem_or_eq_of_mem_set hr with hr1 | rfl
          · rcases List.mem_or_eq_of_mem_set hr1 with hr2 | rfl
            · exact Or.inl ⟨r, hr2, hx⟩
            · exact Or.inl ⟨_, getD_mem _ cIdx dRoom hclt, List.mem_of_mem_erase hx⟩
          · rcases List.mem_append.mp hx with hx1 | hx1
            · exact Or.inl ⟨_, getD_mem _ tIdx dRoom htlt, hx1⟩
            · exact Or.inr (List.mem_singleton.mp hx1)
        · rw [moveWithCurrent_kindList_other d tIdx cIdx p pid hk] at hr
          exact Or.inl ⟨r, hr, hx⟩
      have hp2i : (setFieldFor
          (clearFieldFor p ((kindList d kind).getD cIdx dRoom).room_type)
          ((kindList d kind).getD tIdx dRoom).room_type).person_id = pid := by
        rw [setFieldFor_id, clearFieldFor_id, hpid]
      rw [he] at hcap' ⊢
      refine ⟨hcap', ?_, ?_, ?_⟩
      · show ((moveWithCurrent d kind tIdx cIdx p pid).people.map
            Person.person_id).Nodup ∧ _
        rw [moveWithCurrent_people]
        exact hIds _ hp2i
      · intro r hr x hx
        show ∃ q ∈ (moveWithCurrent d kind tIdx cIdx p pid).people, q.person_id = x
        rw [moveWithCurrent_people]
        have hrk : r ∈ kindList (moveWithCurrent d kind tIdx cIdx p pid) .office ∨
            r ∈ kindList (moveWithCurrent d kind tIdx cIdx p pid) .living := by
          rcases List.mem_append.mp hr with hm | hm
          · exact Or.inl hm
          · exact Or.inr hm
        have hsrc : (∃ r0 ∈ d.offices ++ d.living_spaces, x ∈ r0.occupants) ∨
            x = pid := by
          rcases hrk with hk | hk
          · rcases hSrc .office r hk x hx with ⟨r0, h0, hx0⟩ | hxp
            · exact Or.inl ⟨r0, List.mem_append_left _ h0, hx0⟩
            · exact Or.inr hxp
          · rcases hSrc .living r hk x hx with ⟨r0, h0, hx0⟩ | hxp
            · exact Or.inl ⟨r0, List.mem_append_right _ h0, hx0⟩
            · exact Or.inr hxp
        rcases hsrc with ⟨r0, h0, hx0⟩ | rfl
        · exact hOwner _ hp2i x (hocc r0 h0 x hx0)
        · exact ⟨_, updatePerson_mem_self hpmem hpid, hp2i⟩
      · intro q hq hSt
        show q.living_space_allocated = Alloc.nil ∧
          ∀ r ∈ (moveWithCurrent d kind tIdx cIdx p pid).living_spaces,
            q.person_id ∉ r.occupants
        rw [moveWithCurrent_people] at hq
        rcases mem_updatePerson hq with ⟨rfl, _⟩ | ⟨hqold, hqne⟩
        · have hpSt : p.person_type = "STAFF" := by
            rw [setFieldFor_type, clearFieldFor_type] at hSt
            exact hSt
          cases kind with
          | living =>
            have := (helig rfl).1.1
            rw [hpSt] at this
            exact absurd this (by decide)
          | office =>
            have htypC : ((kindList d .office).getD cIdx dRoom).room_type =
                "office" := (hcap.1 _ (getD_mem _ cIdx dRoom hclt)).1
            have htypT : ((kindList d .office).getD tIdx dRoom).room_type =
                "office" := (hcap.1 _ (getD_mem _ tIdx dRoom htlt)).1
            constructor
            · rw [htypC, htypT]
              simp only [setFieldFor, clearFieldFor]
              rw [if_pos (by decide), if_pos (by decide)]
              exact (hstaff p hpmem hpSt).1
            · intro r hr
              have hr' : r ∈ kindList (moveWithCurrent d .office tIdx cIdx p pid)
                  .living := hr
              rw [moveWithCurrent_kindList_other d tIdx cIdx p pid (by decide)] at hr'
              rw [hp2i, ← hpid]
              exact (hstaff p hpmem hpSt).2 r hr'
        · refine ⟨(hstaff q hqold hSt).1, ?_⟩
          intro r hr hmem
          have hr' : r ∈ kindList (moveWithCurrent d kind tIdx cIdx p pid) .living :=
            hr
          rcases hSrc .living r hr' _ hmem with ⟨r0, h0, hx0⟩ | hxp
          · exact (hstaff q hqold hSt).2 r0 h0 hx0
          · exact hqne hxp
    · -- move with no current room
      have hSrc : ∀ (k : RoomKind) r,
          r ∈ kindList (moveNoCurrent d kind tIdx p pid) k →
          ∀ x ∈ r.occupants, (∃ r0 ∈ kindList d k, x ∈ r0.occupants) ∨ x = pid := by
        intro k r hr x hx
        by_cases hk : k = kind
        · subst hk
          rw [moveNoCurrent_kindList_self d k tIdx p pid] at hr
          rcases List.mem_or_eq_of_mem_set hr with hr1 | rfl
          · exact Or.inl ⟨r, hr1, hx⟩
          · rcases List.mem_append.mp hx with hx1 | hx1
            · exact Or.inl ⟨_, getD_mem _ tIdx dRoom htlt, hx1⟩
            · exact Or.inr (List.mem_singleton.mp hx1)
        · rw [moveNoCurrent_kindList_other d tIdx p pid hk] at hr
          exact Or.inl ⟨r, hr, hx⟩
      have hp2i : (setFieldFor p
          ((kindList d kind).getD tIdx dRoom).room_type).person_id = pid := by
        rw [setFieldFor_id, hpid]
      rw [he] at hcap' ⊢
      refine ⟨hcap', ?_, ?_, ?_⟩
      · show ((moveNoCurrent d kind tIdx p pid).people.map
            Person.person_id).Nodup ∧ _
        rw [moveNoCurrent_people]
        exact hIds _ hp2i
      · intro r hr x hx
        show ∃ q ∈ (moveNoCurrent d kind tIdx p pid).people, q.person_id = x
        rw [moveNoCurrent_people]
        have hrk : r ∈ kindList (moveNoCurrent d kind tIdx p pid) .office ∨
            r ∈ kindList (moveNoCurrent d kind tIdx p pid) .living := by
          rcases List.mem_append.mp hr with hm | hm
          · exact Or.inl hm
          · exact Or.inr hm
        have hsrc : (∃ r0 ∈ d.offices ++ d.living_spaces, x ∈ r0.occupants) ∨
            x = pid := by
          rcases hrk with hk | hk
          · rcases hSrc .office r hk x hx with ⟨r0, h0, hx0⟩ | hxp
            · exact Or.inl ⟨r0, List.mem_append_left _ h0, hx0⟩
            · exact Or.inr hxp
          · rcases hSrc .living r hk x hx with ⟨r0, h0, hx0⟩ | hxp
            · exact Or.inl ⟨r0, List.mem_append_right _ h0, hx0⟩
            · exact Or.inr hxp
        rcases hsrc with ⟨r0, h0, hx0⟩ | rfl
        · exact hOwner _ hp2i x (hocc r0 h0 x hx0)
        · exact ⟨_, updatePerson_mem_self hpmem hpid, hp2i⟩
      · intro q hq hSt
        show q.living_space_allocated = Alloc.nil ∧
          ∀ r ∈ (moveNoCurrent d kind tIdx p pid).living_spaces,
            q.person_id ∉ r.occupants
        rw [moveNoCurrent_people] at hq
        rcases mem_updatePerson hq with ⟨rfl, _⟩ | ⟨hqold, hqne⟩
        · have hpSt : p.person_type = "STAFF" := by
            rw [setFieldFor_type] at hSt
            exact hSt
          cases kind with
          | living =>
            have := (helig rfl).1.1
            rw [hpSt] at this
            exact absurd this (by decide)
          | office =>
            have htypT : ((kindList d .office).getD tIdx dRoom).room_type =
                "office" := (hcap.1 _ (getD_mem _ tIdx dRoom htlt)).1
            constructor
            · rw [htypT]
              simp only [setFieldFor]
              rw [if_pos (by decide)]
              exact (hstaff p hpmem hpSt).1
            · intro r hr
              have hr' : r ∈ kindList (moveNoCurrent d .office tIdx p pid)
                  .living := hr
              rw [moveNoCurrent_kindList_other d tIdx p pid (by decide)] at hr'
              rw [hp2i, ← hpid]
              exact (hstaff p hpmem hpSt).2 r hr'
        · refine ⟨(hstaff q hqold hSt).1, ?_⟩
          intro r hr hmem
          have hr' : r ∈ kindList (moveNoCurrent d kind tIdx p pid) .living := hr
          rcases hSrc .living r hr' _ hmem with ⟨r0, h0, hx0⟩ | hxp
          · exact (hstaff q hqold hSt).2 r0 h0 hx0
          · exact hqne hxp

theorem invBase_empty : InvBase emptyDojo :=
  ⟨capOK_empty, ⟨List.nodup_nil, fun q hq => absurd hq (List.not_mem_nil q)⟩,
    fun r hr => absurd hr (List.not_mem_nil r),
    fun q hq => absurd hq (List.not_mem_nil q)⟩

theorem invBase_run : ∀ (ops : List Op) (d : Dojo), InvBase d →
    freshAlongB d ops = true → InvBase (ops.foldl applyOp d)
  | [], _, h, _ => h
  | op :: ops, d, h, hf => by
    obtain ⟨hf1, hf2⟩ := (Bool.and_eq_true _ _).mp hf
    refine invBase_run ops _ ?_ hf2
    cases op with
    | createRoom rt ns => exact invBase_create d rt ns h
    | addPerson n pt wa fresh kO kL =>
      unfold FreshOkB at hf1
      obtain ⟨hne, hall⟩ := (Bool.and_eq_true _ _).mp hf1
      refine invBase_add d n pt wa fresh kO kL h (by simpa using hne) ?_
      intro q hq
      have := List.all_eq_true.mp hall q hq
      simpa using this
    | reallocatePerson pid rn => exact invBase_realloc d pid rn h

/-- Claim C8: along any run of the engine whose generated uuids are fresh
(as `uuid.uuid4()` guarantees), every Staff person's living-space
assignment attribute stays absent (`nil`) and no Staff person's id ever
appears in any living space's occupant list. -/
theorem claim_C8_staff_no_living (ops : List Op)
    (hfresh : freshAlongB emptyDojo ops = true) :
    ∀ p ∈ (runOps ops).people, p.person_type = "STAFF" →
      p.living_space_allocated = Alloc.nil ∧
      ∀ r ∈ (runOps ops).living_spaces, p.person_id ∉ r.occupants :=
  (invBase_run ops emptyDojo invBase_empty hfresh).2.2.2

/-- Witness for C8: a run that admits the staff member Bo and then even
attempts to reallocate him into the living space "Python". -/
theorem claim_C8_witness :
    freshAlongB emptyDojo
      [.createRoom "living_space" ["Python"], .createRoom "office" ["Blue"],
       .addPerson "Bo" "STAFF" "N" "id2" 0 0,
       .reallocatePerson "id2" "Python"] = true ∧
    ∀ p ∈ (runOps [.createRoom "living_space" ["Python"],
        .createRoom "office" ["Blue"], .addPerson "Bo" "STAFF" "N" "id2" 0 0,
        .reallocatePerson "id2" "Python"]).people, p.person_type = "STAFF" →
      p.living_space_allocated = Alloc.nil ∧
      ∀ r ∈ (runOps [.createRoom "living_space" ["Python"],
          .createRoom "office" ["Blue"], .addPerson "Bo" "STAFF" "N" "id2" 0 0,
          .reallocatePerson "id2" "Python"]).living_spaces,
        p.person_id ∉ r.occupants :=
  ⟨by decide, claim_C8_staff_no_living _ (by decide)⟩

/-! ### Preservation of the full invariant under creation and admission
(claim C5) -/

theorem roomNameExists_false_iff {d : Dojo} {n : String} :
    roomNameExists d n = false ↔
      ∀ r ∈ d.offices ++ d.living_spaces, pyLower r.name ≠ pyLower n := by
  unfold roomNameExists
  rw [← Bool.not_eq_true, List.any_eq_true]
  constructor
  · intro h r hr heq
    exact h ⟨r, hr, by simpa using heq⟩
  · rintro h ⟨r, hr, heq⟩
    exact h r hr (by simpa using heq)

theorem namesOK_append_office {d : Dojo} {n : String} (hn : NamesOK d)
    (hex : roomNameExists d n = false) :
    NamesOK { d with offices := d.offices ++ [Office n] } := by
  show (((d.offices ++ [Office n]) ++ d.living_spaces).map
    (fun r => pyLower r.name)).Nodup
  rw [List.append_assoc]
  show ((d.offices ++ (Office n :: d.living_spaces)).map
    (fun r => pyLower r.name)).Nodup
  rw [List.map_append, List.map_cons]
  rw [List.nodup_middle]
  refine List.nodup_cons.mpr ⟨?_, ?_⟩
  · intro hmem
    rw [← List.map_append] at hmem
    obtain ⟨r, hr, hre⟩ := List.mem_map.mp hmem
    exact roomNameExists_false_iff.mp hex r hr hre
  · rw [← List.map_append]
    exact hn

theorem namesOK_append_living {d : Dojo} {n : String} (hn : NamesOK d)
    (hex : roomNameExists d n = false) :
    NamesOK { d with living_spaces := d.living_spaces ++ [LivingSpace n] } := by
  show ((d.offices ++ (d.living_spaces ++ [LivingSpace n])).map
    (fun r => pyLower r.name)).Nodup
  rw [← List.append_assoc, List.map_append]
  refine nodup_append_singleton ?_ ?_
  · exact hn
  · intro hmem
    obtain ⟨r, hr, hre⟩ := List.mem_map.mp hmem
    exact roomNameExists_false_iff.mp hex r hr hre

theorem invFull_append_office {d : Dojo} {n : String} (h : InvFull d)
    (hex : roomNameExists d n = false) :
    InvFull { d with offices := d.offices ++ [Office n] } := by
  obtain ⟨hbase, hnames, hfields, hcons⟩ := h
  refine ⟨invBase_append_office hbase, namesOK_append_office hnames hex, ?_, ?_⟩
  · intro q hq
    refine ⟨?_, (hfields q hq).2⟩
    intro s hs
    obtain ⟨r, hr, hre⟩ := (hfields q hq).1 s hs
    exact ⟨r, List.mem_append_left _ hr, hre⟩
  · intro q hq
    refine ⟨?_, (hcons q hq).2⟩
    intro r hr
    rcases List.mem_append.mp hr with hm | hm
    · exact (hcons q hq).1 r hm
    · rw [List.mem_singleton.mp hm]
      constructor
      · intro hmem
        exact absurd hmem (List.not_mem_nil _)
      · intro hfield
        obtain ⟨r0, hr0, hr0e⟩ := (hfields q hq).1 n hfield
        exact absurd (show pyLower r0.name = pyLower (Office n).name by
            rw [hr0e]; rfl)
          (roomNameExists_false_iff.mp hex r0 (List.mem_append_left _ hr0))

theorem invFull_append_living {d : Dojo} {n : String} (h : InvFull d)
    (hex : roomNameExists d n = false) :
    InvFull { d with living_spaces := d.living_spaces ++ [LivingSpace n] } := by
  obtain ⟨hbase, hnames, hfields, hcons⟩ := h
  refine ⟨invBase_append_living hbase, namesOK_append_living hnames hex, ?_, ?_⟩
  · intro q hq
    refine ⟨(hfields q hq).1, ?_⟩
    intro s hs
    obtain ⟨r, hr, hre⟩ := (hfields q hq).2 s hs
    exact ⟨r, List.mem_append_left _ hr, hre⟩
  · intro q hq
    refine ⟨(hcons q hq).1, ?_⟩
    intro r hr
    rcases List.mem_append.mp hr with hm | hm
    · exact (hcons q hq).2 r hm
    · rw [List.mem_singleton.mp hm]
      constructor
      · intro hmem
        exact absurd hmem (List.not_mem_nil _)
      · intro hfield
        obtain ⟨r0, hr0, hr0e⟩ := (hfields q hq).2 n hfield
        exact absurd (show pyLower r0.name = pyLower (LivingSpace n).name by
            rw [hr0e]; rfl)
          (roomNameExists_false_iff.mp hex r0 (List.mem_append_right _ hr0))

theorem invFull_create (d : Dojo) (rt : String) (ns : List String) (h : InvFull d) :
    InvFull (create_room d rt ns).2 :=
  create_room_pres d rt ns (fun _ _ hP hex => invFull_append_office hP hex)
    (fun _ _ hP hex => invFull_append_living hP hex) h

theorem add_occupant_appends {fresh : String} {r : Room} (h1 : fresh ≠ "")
    (h2 : fresh ∉ r.occupants) (h3 : r.occupants.length < r.capacity) :
    (r.add_occupant fresh).2 = { r with occupants := r.occupants ++ [fresh] } := by
  unfold Room.add_occupant
  rw [if_neg (by simpa using h1), if_neg (by simpa using h2),
    if_neg (by unfold Room.is_full; simp only [decide_eq_true_eq]; omega)]

theorem is_full_false_lt {r : Room} (h : r.is_full = false) :
    r.occupants.length < r.capacity := by
  unfold Room.is_full at h
  exact Nat.lt_of_not_le (by simpa using h)

theorem namesOK_office_ne {d : Dojo} (hn : NamesOK d) {i j : Nat}
    (hi : i < d.offices.length) (hj : j < d.offices.length) (hij : i ≠ j) :
    (d.offices.getD i dRoom).name ≠ (d.offices.getD j dRoom).name := by
  intro heq
  have hi' : i < (d.offices ++ d.living_spaces).length := by
    rw [List.length_append]
    omega
  have hj' : j < (d.offices ++ d.living_spaces).length := by
    rw [List.length_append]
    omega
  have hne := nodup_map_getD_ne (f := fun r => pyLower r.name) (e := dRoom)
    hn hi' hj' hij
  apply hne
  show pyLower ((d.offices ++ d.living_spaces).getD i dRoom).name =
    pyLower ((d.offices ++ d.living_spaces).getD j dRoom).name
  rw [getD_append_left hi, getD_append_left hj, heq]

theorem namesOK_living_ne {d : Dojo} (hn : NamesOK d) {i j : Nat}
    (hi : i < d.living_spaces.length) (hj : j < d.living_spaces.length)
    (hij : i ≠ j) :
    (d.living_spaces.getD i dRoom).name ≠ (d.living_spaces.getD j dRoom).name := by
  intro heq
  have hi' : d.offices.length + i < (d.offices ++ d.living_spaces).length := by
    rw [List.length_append]
    omega
  have hj' : d.offices.length + j < (d.offices ++ d.living_spaces).length := by
    rw [List.length_append]
    omega
  have hij' : d.offices.length + i ≠ d.offices.length + j := by omega
  have hne := nodup_map_getD_ne (f := fun r => pyLower r.name) (e := dRoom)
    hn hi' hj' hij'
  apply hne
  show pyLower ((d.offices ++ d.living_spaces).getD (d.offices.length + i) dRoom).name =
    pyLower ((d.offices ++ d.living_spaces).getD (d.offices.length + j) dRoom).name
  rw [getD_append_right' hi, getD_append_right' hj, heq]

theorem alloc_corr {rooms rooms1 : List Room} {fresh : String}
    (hspec : rooms1 = rooms ∨ ∃ idx, idx < rooms.length ∧
      ((rooms.getD idx dRoom).is_full = false) ∧
      rooms1 = rooms.set idx ((rooms.getD idx dRoom).add_occupant fresh).2) :
    rooms1.length = rooms.length ∧
    (∀ j, j < rooms.length → (rooms1.getD j dRoom).name = (rooms.getD j dRoom).name) ∧
    (∀ x, x ≠ fresh → ∀ j, j < rooms.length →
      (x ∈ (rooms1.getD j dRoom).occupants ↔ x ∈ (rooms.getD j dRoom).occupants)) := by
  rcases hspec with rfl | ⟨idx, hlt, _, rfl⟩
  · exact ⟨rfl, fun j _ => rfl, fun x _ j _ => Iff.rfl⟩
  · refine ⟨List.length_set _ _ _, ?_, ?_⟩
    · intro j hj
      rcases eq_or_ne idx j with rfl | hne
      · rw [getD_set_self _ _ _ _ hlt]
        exact (add_occupant_fields _ _).1
      · rw [getD_set_ne _ _ _ _ _ hne]
    · intro x hx j hj
      rcases eq_or_ne idx j with rfl | hne
      · rw [getD_set_self _ _ _ _ hlt]
        rcases add_occupant_cases (rooms.getD idx dRoom) fresh with heq | ⟨heq, _⟩ <;>
          rw [heq]
        constructor
        · intro hm
          rcases List.mem_append.mp hm with hm | hm
          · exact hm
          · exact absurd (List.mem_singleton.mp hm) hx
        · intro hm
          exact List.mem_append_left _ hm
      · rw [getD_set_ne _ _ _ _ _ hne]

theorem alloc_names_map {rooms rooms1 : List Room} {fresh : String}
    (hspec : rooms1 = rooms ∨ ∃ idx, idx < rooms.length ∧
      ((rooms.getD idx dRoom).is_full = false) ∧
      rooms1 = rooms.set idx ((rooms.getD idx dRoom).add_occupant fresh).2)
    {β : Type} (f : Room → β) (hf : ∀ r pid, f (r.add_occupant pid).2 = f r) :
    rooms1.map f = rooms.map f := by
  rcases hspec with rfl | ⟨idx, hlt, _, rfl⟩
  · rfl
  · exact map_set_same (e := dRoom) hlt (hf _ _)

theorem invFull_add (d : Dojo) (n pt wa fresh : String) (kO kL : Nat)
    (h : InvFull d) (hf1 : fresh ≠ "")
    (hf2 : ∀ q ∈ d.people, q.person_id ≠ fresh) :
    InvFull (add_person d n pt wa fresh kO kL).2 := by
  obtain ⟨hbase, hnames, hfields, hcons⟩ := h
  have hbase' := invBase_add d n pt wa fresh kO kL hbase hf1 hf2
  obtain ⟨hcap, hids, hocc, hstaff⟩ := hbase
  have hfno : ∀ r ∈ d.offices ++ d.living_spaces, fresh ∉ r.occupants := by
    intro r hr hmem
    obtain ⟨q, hq, hqe⟩ := hocc r hr fresh hmem
    exact hf2 q hq hqe
  rcases add_person_inv d n pt wa fresh kO kL with ⟨b, he⟩ | ⟨p0, hmk, hcase⟩
  · rw [he] at hbase' ⊢
    exact ⟨hbase', hnames, hfields, hcons⟩
  · have hp0id : p0.person_id = fresh := by rcases hmk with rfl | rfl <;> rfl
    have hp0off : p0.office_allocated = Alloc.nil := by
      rcases hmk with rfl | rfl <;> rfl
    have hp0liv : p0.living_space_allocated = Alloc.nil := by
      rcases hmk with rfl | rfl <;> rfl
    have hkeep := allocate_office_keeps d.offices p0 kO
    have hp1id : (allocate_office d.offices p0 kO).2.person_id = fresh := by
      rw [hkeep.1, hp0id]
    have hp1liv : (allocate_office d.offices p0 kO).2.living_space_allocated =
        Alloc.nil := by
      rw [hkeep.2.2.2.1, hp0liv]
    have hOspec : (allocate_office d.offices p0 kO).1 = d.offices ∨
        ∃ idx, idx < d.offices.length ∧
          ((d.offices.getD idx dRoom).is_full = false) ∧
          (allocate_office d.offices p0 kO).1 =
            d.offices.set idx ((d.offices.getD idx dRoom).add_occupant fresh).2 := by
      rcases allocate_office_spec d.offices p0 kO with hs | ⟨idx, hlt, hnf, hs⟩
      · left
        rw [hs]
      · right
        refine ⟨idx, hlt, hnf, ?_⟩
        rw [hs, hp0id]
    have hOcorr := alloc_corr hOspec
    have hOmapL : (allocate_office d.offices p0 kO).1.map (fun r => pyLower r.name) =
        d.offices.map (fun r => pyLower r.name) :=
      alloc_names_map hOspec _ (fun r pid => by rw [(add_occupant_fields r pid).1])
    have hOmapN : (allocate_office d.offices p0 kO).1.map Room.name =
        d.offices.map Room.name :=
      alloc_names_map hOspec Room.name (fun r pid => (add_occupant_fields r pid).1)
    have hP1Off : ∀ j, j < d.offices.length →
        (fresh ∈ ((allocate_office d.offices p0 kO).1.getD j dRoom).occupants ↔
          (allocate_office d.offices p0 kO).2.office_allocated =
            Alloc.name ((allocate_office d.offices p0 kO).1.getD j dRoom).name) := by
      rcases allocate_office_spec d.offices p0 kO with hs | ⟨oIdx, holt, honf, hs⟩
      · intro j hj
        simp only [hs]
        constructor
        · intro hm
          exact absurd hm (hfno _ (List.mem_append_left _ (getD_mem _ _ dRoom hj)))
        · intro hfe
          rw [hp0off] at hfe
          simp at hfe
      · rw [hp0id] at hs
        intro j hj
        simp only [hs]
        rcases eq_or_ne oIdx j with rfl | hne
        · rw [getD_set_self _ _ _ _ holt]
          have happ := add_occupant_appends hf1
            (hfno _ (List.mem_append_left _ (getD_mem _ _ dRoom holt)))
            (is_full_false_lt honf)
          rw [happ]
          constructor
          · intro _
            rfl
          · intro _
            exact List.mem_append_right _ (List.mem_singleton_self fresh)
        · rw [getD_set_ne _ _ _ _ _ hne]
          constructor
          · intro hm
            exact absurd hm (hfno _ (List.mem_append_left _ (getD_mem _ _ dRoom hj)))
          · intro hfe
            exact absurd (Alloc.name.inj hfe)
              (namesOK_office_ne hnames holt hj hne)
    have hP1OffField : (∀ s, (allocate_office d.offices p0 kO).2.office_allocated =
        Alloc.name s → ∃ r ∈ (allocate_office d.offices p0 kO).1, r.name = s) := by
      rcases allocate_office_spec d.offices p0 kO with hs | ⟨oIdx, holt, honf, hs⟩
      · intro s hs'
        simp only [hs] at hs'
        rw [hp0off] at hs'
        simp at hs'
      · intro s hs'
        simp only [hs] at hs' ⊢
        refine ⟨(d.offices.set oIdx
            ((d.offices.getD oIdx dRoom).add_occupant p0.person_id).2).getD oIdx dRoom,
          getD_mem _ _ dRoom (by rw [List.length_set]; exact holt), ?_⟩
        rw [getD_set_self _ _ _ _ holt, (add_occupant_fields _ _).1]
        exact Alloc.name.inj hs'
    -- the same facts for the living-space allocation attempted on p1
    have hkeepL := allocate_living_keeps d.living_spaces
      (allocate_office d.offices p0 kO).2 kL
    have hp2id : (allocate_living_space d.living_spaces
        (allocate_office d.offices p0 kO).2 kL).2.person_id = fresh := by
      rw [hkeepL.1, hp1id]
    have hp2off : (allocate_living_space d.living_spaces
        (allocate_office d.offices p0 kO).2 kL).2.office_allocated =
        (allocate_office d.offices p0 kO).2.office_allocated := hkeepL.2.2.2.1
    have hLspec : (allocate_living_space d.living_spaces
          (allocate_office d.offices p0 kO).2 kL).1 = d.living_spaces ∨
        ∃ idx, idx < d.living_spaces.length ∧
          ((d.living_spaces.getD idx dRoom).is_full = false) ∧
          (allocate_living_space d.living_spaces
              (allocate_office d.offices p0 kO).2 kL).1 =
            d.living_spaces.set idx
              ((d.living_spaces.getD idx dRoom).add_occupant fresh).2 := by
      rcases allocate_living_spec d.living_spaces
          (allocate_office d.offices p0 kO).2 kL with hs | ⟨idx, hlt, hnf, hs⟩
      · left
        rw [hs]
      · right
        refine ⟨idx, hlt, hnf, ?_⟩
        rw [hs, hp1id]
    have hLcorr := alloc_corr hLspec
    have hLmapL : (allocate_living_space d.living_spaces
          (allocate_office d.offices p0 kO).2 kL).1.map (fun r => pyLower r.name) =
        d.living_spaces.map (fun r => pyLower r.name) :=
      alloc_names_map hLspec _ (fun r pid => by rw [(add_occupant_fields r pid).1])
    have hLmapN : (allocate_living_space d.living_spaces
          (allocate_office d.offices p0 kO).2 kL).1.map Room.name =
        d.living_spaces.map Room.name :=
      alloc_names_map hLspec Room.name (fun r pid => (add_occupant_fields r pid).1)
    have hP2Liv : ∀ j, j < d.living_spaces.length →
        (fresh ∈ ((allocate_living_space d.living_spaces
            (allocate_office d.offices p0 kO).2 kL).1.getD j dRoom).occupants ↔
          (allocate_living_space d.living_spaces
              (allocate_office d.offices p0 kO).2 kL).2.living_space_allocated =
            Alloc.name ((allocate_living_space d.living_spaces
              (allocate_office d.offices p0 kO).2 kL).1.getD j dRoom).name) := by
      rcases allocate_living_spec d.living_spaces
          (allocate_office d.offices p0 kO).2 kL with hs | ⟨lIdx, hllt, hlnf, hs⟩
      · intro j hj
        simp only [hs]
        constructor
        · intro hm
          exact absurd hm (hfno _ (List.mem_append_right _ (getD_mem _ _ dRoom hj)))
        · intro hfe
          rw [hp1liv] at hfe
          simp at hfe
      · rw [hp1id] at hs
        intro j hj
        simp only [hs]
        rcases eq_or_ne lIdx j with rfl | hne
        · rw [getD_set_self _ _ _ _ hllt]
          have happ := add_occupant_appends hf1
            (hfno _ (List.mem_append_right _ (getD_mem _ _ dRoom hllt)))
            (is_full_false_lt hlnf)
          rw [happ]
          constructor
          · intro _
            rfl
          · intro _
            exact List.mem_append_right _ (List.mem_singleton_self fresh)
        · rw [getD_set_ne _ _ _ _ _ hne]
          constructor
          · intro hm
            exact absurd hm
              (hfno _ (List.mem_append_right _ (getD_mem _ _ dRoom hj)))
          · intro hfe
            exact absurd (Alloc.name.inj hfe)
              (namesOK_living_ne hnames hllt hj hne)
    have hP2LivField : (∀ s, (allocate_living_space d.living_spaces
          (allocate_office d.offices p0 kO).2 kL).2.living_space_allocated =
        Alloc.name s → ∃ r ∈ (allocate_living_space d.living_spaces
          (allocate_office d.offices p0 kO).2 kL).1, r.name = s) := by
      rcases allocate_living_spec d.living_spaces
          (allocate_office d.offices p0 kO).2 kL with hs | ⟨lIdx, hllt, hlnf, hs⟩
      · intro s hs'
        simp only [hs] at hs'
        rw [hp1liv] at hs'
        simp at hs'
      · intro s hs'
        simp only [hs] at hs' ⊢
        refine ⟨(d.living_spaces.set lIdx
            ((d.living_spaces.getD lIdx dRoom).add_occupant
              (allocate_office d.offices p0 kO).2.person_id).2).getD lIdx dRoom,
          getD_mem _ _ dRoom (by rw [List.length_set]; exact hllt), ?_⟩
        rw [getD_set_self _ _ _ _ hllt, (add_occupant_fields _ _).1]
        exact Alloc.name.inj hs'
    rcases hcase with ⟨o, he⟩ | ⟨hfw, hmkF, he⟩
    · -- office-only path
      rw [he] at hbase' ⊢
      refine ⟨hbase', ?_, ?_, ?_⟩
      · show (((allocate_office d.offices p0 kO).1 ++ d.living_spaces).map
          (fun r => pyLower r.name)).Nodup
        rw [List.map_append, hOmapL, ← List.map_append]
        exact hnames
      · intro q hq
        rcases List.mem_append.mp hq with hq | hq
        · refine ⟨?_, (hfields q hq).2⟩
          intro s hs
          obtain ⟨r, hr, hre⟩ := (hfields q hq).1 s hs
          have hsm : s ∈ (allocate_office d.offices p0 kO).1.map Room.name := by
            rw [hOmapN]
            exact List.mem_map.mpr ⟨r, hr, hre⟩
          obtain ⟨r1, hr1, hr1e⟩ := List.mem_map.mp hsm
          exact ⟨r1, hr1, hr1e⟩
        · rw [List.mem_singleton.mp hq]
          refine ⟨hP1OffField, ?_⟩
          intro s hs
          rw [hp1liv] at hs
          simp at hs
      · intro q hq
        rcases List.mem_append.mp hq with hq | hq
        · have hqf : q.person_id ≠ fresh := hf2 q hq
          refine ⟨?_, (hcons q hq).2⟩
          intro r1 hr1
          obtain ⟨j, hj1, rfl⟩ := (mem_iff_getD _ _ dRoom).mp hr1
          rw [hOcorr.1] at hj1
          rw [hOcorr.2.2 q.person_id hqf j hj1, hOcorr.2.1 j hj1]
          exact (hcons q hq).1 _ (getD_mem _ _ dRoom hj1)
        · rw [List.mem_singleton.mp hq]
          constructor
          · intro r1 hr1
            obtain ⟨j, hj1, rfl⟩ := (mem_iff_getD _ _ dRoom).mp hr1
            rw [hOcorr.1] at hj1
            rw [hp1id]
            exact hP1Off j hj1
          · intro r hr
            constructor
            · intro hm
              rw [hp1id] at hm
              exact absurd hm (hfno _ (List.mem_append_right _ hr))
            · intro hfe
              rw [hp1liv] at hfe
              simp at hfe
    · -- fellow-with-accommodation path
      rw [he] at hbase' ⊢
      refine ⟨hbase', ?_, ?_, ?_⟩
      · show (((allocate_office d.offices p0 kO).1 ++
          (allocate_living_space d.living_spaces
            (allocate_office d.offices p0 kO).2 kL).1).map
          (fun r => pyLower r.name)).Nodup
        rw [List.map_append, hOmapL, hLmapL, ← List.map_append]
        exact hnames
      · intro q hq
        rcases List.mem_append.mp hq with hq | hq
        · constructor
          · intro s hs
            obtain ⟨r, hr, hre⟩ := (hfields q hq).1 s hs
            have hsm : s ∈ (allocate_office d.offices p0 kO).1.map Room.name := by
              rw [hOmapN]
              exact List.mem_map.mpr ⟨r, hr, hre⟩
            obtain ⟨r1, hr1, hr1e⟩ := List.mem_map.mp hsm
            exact ⟨r1, hr1, hr1e⟩
          · intro s hs
            obtain ⟨r, hr, hre⟩ := (hfields q hq).2 s hs
            have hsm : s ∈ (allocate_living_space d.living_spaces
                (allocate_office d.offices p0 kO).2 kL).1.map Room.name := by
              rw [hLmapN]
              exact List.mem_map.mpr ⟨r, hr, hre⟩
            obtain ⟨r1, hr1, hr1e⟩ := List.mem_map.mp hsm
            exact ⟨r1, hr1, hr1e⟩
        · rw [List.mem_singleton.mp hq]
          constructor
          · intro s hs
            rw [hp2off] at hs
            obtain ⟨r1, hr1, hr1e⟩ := hP1OffField s hs
            exact ⟨r1, hr1, hr1e⟩
          · exact hP2LivField
      · intro q hq
        rcases List.mem_append.mp hq with hq | hq
        · have hqf : q.person_id ≠ fresh := hf2 q hq
          constructor
          · intro r1 hr1
            obtain ⟨j, hj1, rfl⟩ := (mem_iff_getD _ _ dRoom).mp hr1
            rw [hOcorr.1] at hj1
            rw [hOcorr.2.2 q.person_id hqf j hj1, hOcorr.2.1 j hj1]
            exact (hcons q hq).1 _ (getD_mem _ _ dRoom hj1)
          · intro r1 hr1
            obtain ⟨j, hj1, rfl⟩ := (mem_iff_getD _ _ dRoom).mp hr1
            rw [hLcorr.1] at hj1
            rw [hLcorr.2.2 q.person_id hqf j hj1, hLcorr.2.1 j hj1]
            exact (hcons q hq).2 _ (getD_mem _ _ dRoom hj1)
        · rw [List.mem_singleton.mp hq]
          constructor
          · intro r1 hr1
            obtain ⟨j, hj1, rfl⟩ := (mem_iff_getD _ _ dRoom).mp hr1
            rw [hOcorr.1] at hj1
            rw [hp2id, hp2off]
            exact hP1Off j hj1
          · intro r1 hr1
            obtain ⟨j, hj1, rfl⟩ := (mem_iff_getD _ _ dRoom).mp hr1
            rw [hLcorr.1] at hj1
            rw [hp2id]
            exact hP2Liv j hj1

theorem invFull_empty : InvFull emptyDojo :=
  ⟨invBase_empty, List.nodup_nil,
    fun q hq => absurd hq (List.not_mem_nil q),
    fun q hq => absurd hq (List.not_mem_nil q)⟩

theorem invFull_run : ∀ (ops : List Op) (d : Dojo), InvFull d →
    onlyCreateAddB ops = true → freshAlongB d ops = true →
    InvFull (ops.foldl applyOp d)
  | [], _, h, _, _ => h
  | op :: ops, d, h, hca, hf => by
    obtain ⟨hf1, hf2⟩ := (Bool.and_eq_true _ _).mp hf
    cases op with
    | createRoom rt ns =>
      exact invFull_run ops _ (invFull_create d rt ns h) hca hf2
    | addPerson n pt wa fresh kO kL =>
      unfold FreshOkB at hf1
      obtain ⟨hne, hall⟩ := (Bool.and_eq_true _ _).mp hf1
      refine invFull_run ops _
        (invFull_add d n pt wa fresh kO kL h (by simpa using hne) ?_) hca hf2
      intro q hq
      have := List.all_eq_true.mp hall q hq
      simpa using this
    | reallocatePerson pid rn => exact absurd hca (by simp [onlyCreateAddB])

/-- Claim C5 (counterexample): bidirectional consistency is broken both by
`reallocate_person` (which records the boolean `True` instead of the room)
and by `load_state` (which restores person assignments but reconstructs
every room with an empty occupant list, because the
`person_room_association` table is never written). -/
theorem claim_C5_counterexample :
    ¬Consistent (reallocate_person dState1 "id1" "Red").2 ∧
    (service_load_state emptyDojo
      (DbFile.good [⟨"blue", "blue", "office", 6⟩]
        [⟨"id1", "Ann", "FELLOW", false, some "blue", none⟩])).1 = true ∧
    ¬Consistent (service_load_state emptyDojo
      (DbFile.good [⟨"blue", "blue", "office", 6⟩]
        [⟨"id1", "Ann", "FELLOW", false, some "blue", none⟩])).2 := by
  refine ⟨?_, by decide, ?_⟩ <;>
    · unfold Consistent
      decide

/-- Claim C5 (amended): after every sequence of `createRoom` and
`addPerson` calls from the empty domain instance (with fresh uuids),
bidirectional consistency holds: a person's id appears in room R's
occupants iff R's name is that person's recorded assignment for R's kind.
`reallocatePerson` and `load` both break the invariant. -/
theorem claim_C5_consistency (ops : List Op)
    (hca : onlyCreateAddB ops = true)
    (hfresh : freshAlongB emptyDojo ops = true) :
    Consistent (runOps ops) :=
  (invFull_run ops emptyDojo invFull_empty hca hfresh).2.2.2

/-- Witness for C5 (amended) on a run with two offices, a living space, a
fellow wanting accommodation and a staff member. -/
theorem claim_C5_witness :
    onlyCreateAddB
      [.createRoom "office" ["Blue", "Red"],
       .createRoom "living_space" ["Python"],
       .addPerson "Ann" "FELLOW" "Y" "id1" 0 0,
       .addPerson "Bo" "STAFF" "N" "id2" 1 0] = true ∧
    freshAlongB emptyDojo
      [.createRoom "office" ["Blue", "Red"],
       .createRoom "living_space" ["Python"],
       .addPerson "Ann" "FELLOW" "Y" "id1" 0 0,
       .addPerson "Bo" "STAFF" "N" "id2" 1 0] = true ∧
    Consistent (runOps
      [.createRoom "office" ["Blue", "Red"],
       .createRoom "living_space" ["Python"],
       .addPerson "Ann" "FELLOW" "Y" "id1" 0 0,
       .addPerson "Bo" "STAFF" "N" "id2" 1 0]) :=
  ⟨by decide, by decide, claim_C5_consistency _ (by decide) (by decide)⟩

/-- Claim C9: moving a person from room A (index `i`) to a non-full room
B (index `j`) of the same kind succeeds and leaves the id absent from A
and present in B; the reverse move (with A not full) succeeds and
restores the occupant membership of both rooms.  The hypotheses say that
the two target names resolve to B resp. A, that the person occupies
exactly room A of this kind (once), that B is not full, that A is within
capacity, and that the two room names differ ignoring case. -/
theorem claim_C9_roundtrip (d : Dojo) (kind : RoomKind) (pid : String)
    (p : Person) (i j : Nat)
    (hp : findPerson d pid = some p)
    (htB : findTarget d p ((kindList d kind).getD j dRoom).name =
      TargetRes.found kind j)
    (htA : findTarget d p ((kindList d kind).getD i dRoom).name =
      TargetRes.found kind i)
    (hi : i < (kindList d kind).length) (hj : j < (kindList d kind).length)
    (hij : i ≠ j)
    (hcount : ((kindList d kind).getD i dRoom).occupants.count pid = 1)
    (hnotin : ∀ k, k < (kindList d kind).length → k ≠ i →
      pid ∉ ((kindList d kind).getD k dRoom).occupants)
    (hBfull : ((kindList d kind).getD j dRoom).occupants.length <
      ((kindList d kind).getD j dRoom).capacity)
    (hAcap : ((kindList d kind).getD i dRoom).occupants.length ≤
      ((kindList d kind).getD i dRoom).capacity)
    (hAB : pyLower ((kindList d kind).getD i dRoom).name ≠
      pyLower ((kindList d kind).getD j dRoom).name) :
    (reallocate_person d pid ((kindList d kind).getD j dRoom).name).1 = true ∧
    pid ∉ ((kindList (reallocate_person d pid
      ((kindList d kind).getD j dRoom).name).2 kind).getD i dRoom).occupants ∧
    pid ∈ ((kindList (reallocate_person d pid
      ((kindList d kind).getD j dRoom).name).2 kind).getD j dRoom).occupants ∧
    (reallocate_person (reallocate_person d pid
      ((kindList d kind).getD j dRoom).name).2 pid
      ((kindList d kind).getD i dRoom).name).1 = true ∧
    (∀ x, x ∈ ((kindList (reallocate_person (reallocate_person d pid
        ((kindList d kind).getD j dRoom).name).2 pid
        ((kindList d kind).getD i dRoom).name).2 kind).getD i dRoom).occupants ↔
      x ∈ ((kindList d kind).getD i dRoom).occupants) ∧
    (∀ x, x ∈ ((kindList (reallocate_person (reallocate_person d pid
        ((kindList d kind).getD j dRoom).name).2 pid
        ((kindList d kind).getD i dRoom).name).2 kind).getD j dRoom).occupants ↔
      x ∈ ((kindList d kind).getD j dRoom).occupants) := by
  have hmemA : pid ∈ ((kindList d kind).getD i dRoom).occupants :=
    List.count_pos_iff.mp (by rw [hcount]; exact Nat.one_pos)
  have hApid : pid ∉ ((kindList d kind).getD i dRoom).occupants.erase pid := by
    have h0 : (((kindList d kind).getD i dRoom).occupants.erase pid).count pid = 0 := by
      rw [List.count_erase_self, hcount]
    exact List.count_eq_zero.mp h0
  have hpidB : pid ∉ ((kindList d kind).getD j dRoom).occupants :=
    hnotin j hj (Ne.symm hij)
  have hcur1 : findCurrentIdx (kindList d kind) pid = some i :=
    findCurrentIdx_of hi hmemA
      (fun k hk => hnotin k (Nat.lt_trans hk hi) (Nat.ne_of_lt hk))
  have hsucc1 := reallocate_success_cur d pid
    ((kindList d kind).getD j dRoom).name hp htB hBfull hcur1 hAB
  have hklist1 := moveWithCurrent_kindList_self d kind j i p pid hij
  have hR1i : ((((kindList d kind).set i
      { (kindList d kind).getD i dRoom with
          occupants := ((kindList d kind).getD i dRoom).occupants.erase pid }).set j
      { (kindList d kind).getD j dRoom with
          occupants := ((kindList d kind).getD j dRoom).occupants ++ [pid] }).getD i
      dRoom) =
      { (kindList d kind).getD i dRoom with
          occupants := ((kindList d kind).getD i dRoom).occupants.erase pid } := by
    rw [getD_set_ne _ _ _ _ _ (Ne.symm hij), getD_set_self _ _ _ _ hi]
  have hR1j : ((((kindList d kind).set i
      { (kindList d kind).getD i dRoom with
          occupants := ((kindList d kind).getD i dRoom).occupants.erase pid }).set j
      { (kindList d kind).getD j dRoom with
          occupants := ((kindList d kind).getD j dRoom).occupants ++ [pid] }).getD j
      dRoom) =
      { (kindList d kind).getD j dRoom with
          occupants := ((kindList d kind).getD j dRoom).occupants ++ [pid] } := by
    rw [getD_set_self _ _ _ _ (by rw [List.length_set]; exact hj)]
  have hlen1 : (kindList (moveWithCurrent d kind j i p pid) kind).length =
      (kindList d kind).length := by
    rw [hklist1, List.length_set, List.length_set]
  have hM1i : ((kindList (moveWithCurrent d kind j i p pid) kind).getD i dRoom) =
      { (kindList d kind).getD i dRoom with
          occupants := ((kindList d kind).getD i dRoom).occupants.erase pid } := by
    rw [hklist1]
    exact hR1i
  have hM1j : ((kindList (moveWithCurrent d kind j i p pid) kind).getD j dRoom) =
      { (kindList d kind).getD j dRoom with
          occupants := ((kindList d kind).getD j dRoom).occupants ++ [pid] } := by
    rw [hklist1]
    exact hR1j
  have hM1k : ∀ k, k ≠ i → k ≠ j →
      ((kindList (moveWithCurrent d kind j i p pid) kind).getD k dRoom) =
        (kindList d kind).getD k dRoom := by
    intro k hki hkj
    rw [hklist1, getD_set_ne _ _ _ _ _ (Ne.symm hkj),
      getD_set_ne _ _ _ _ _ (Ne.symm hki)]
  -- the person after the first move
  have hp2id : (setFieldFor
      (clearFieldFor p ((kindList d kind).getD i dRoom).room_type)
      ((kindList d kind).getD j dRoom).room_type).person_id = p.person_id := by
    rw [setFieldFor_id, clearFieldFor_id]
  have hp2 : findPerson (moveWithCurrent d kind j i p pid) pid =
      some (setFieldFor
        (clearFieldFor p ((kindList d kind).getD i dRoom).room_type)
        ((kindList d kind).getD j dRoom).room_type) := by
    show (moveWithCurrent d kind j i p pid).people.find?
      (fun q => q.person_id == pid) = _
    rw [moveWithCurrent_people]
    exact findPerson_updatePerson hp hp2id
  have hmapkind : (kindList (moveWithCurrent d kind j i p pid) kind).map Room.name =
      (kindList d kind).map Room.name := by
    rw [hklist1]
    have h1 := map_set_same (e := dRoom) (f := Room.name)
      (l := (kindList d kind).set i
        { (kindList d kind).getD i dRoom with
            occupants := ((kindList d kind).getD i dRoom).occupants.erase pid })
      (by rw [List.length_set]; exact hj)
      (show Room.name { (kindList d kind).getD j dRoom with
          occupants := ((kindList d kind).getD j dRoom).occupants ++ [pid] } = _ by
        rw [getD_set_ne _ _ _ _ _ hij])
    rw [h1]
    exact map_set_same (e := dRoom) hi rfl
  have hother : ∀ k', k' ≠ kind →
      kindList (moveWithCurrent d kind j i p pid) k' = kindList d k' :=
    fun k' hk => moveWithCurrent_kindList_other d j i p pid hk
  have ho : (moveWithCurrent d kind j i p pid).offices.map Room.name =
      d.offices.map Room.name := by
    cases kind
    · exact hmapkind
    · exact congrArg (List.map Room.name) (hother .office (by decide))
  have hl : (moveWithCurrent d kind j i p pid).living_spaces.map Room.name =
      d.living_spaces.map Room.name := by
    cases kind
    · exact congrArg (List.map Room.name) (hother .living (by decide))
    · exact hmapkind
  have htA2 : findTarget (moveWithCurrent d kind j i p pid)
      (setFieldFor (clearFieldFor p ((kindList d kind).getD i dRoom).room_type)
        ((kindList d kind).getD j dRoom).room_type)
      ((kindList d kind).getD i dRoom).name = TargetRes.found kind i := by
    have hty : (setFieldFor
        (clearFieldFor p ((kindList d kind).getD i dRoom).room_type)
        ((kindList d kind).getD j dRoom).room_type).person_type =
        p.person_type := by
      rw [setFieldFor_type, clearFieldFor_type]
    have hwa : (setFieldFor
        (clearFieldFor p ((kindList d kind).getD i dRoom).room_type)
        ((kindList d kind).getD j dRoom).room_type).wants_accommodation =
        p.wants_accommodation := by
      rw [setFieldFor_wants, clearFieldFor_wants]
    rw [findTarget_congr _ ho hl hty hwa]
    exact htA
  have hfull2 : ((kindList (moveWithCurrent d kind j i p pid) kind).getD i
        dRoom).occupants.length <
      ((kindList (moveWithCurrent d kind j i p pid) kind).getD i dRoom).capacity := by
    rw [hM1i]
    show (((kindList d kind).getD i dRoom).occupants.erase pid).length <
      ((kindList d kind).getD i dRoom).capacity
    rw [List.length_erase_of_mem hmemA]
    have hpos : 0 < ((kindList d kind).getD i dRoom).occupants.length :=
      List.length_pos.mpr (List.ne_nil_of_mem hmemA)
    omega
  have hcur2 : findCurrentIdx (kindList (moveWithCurrent d kind j i p pid) kind)
      pid = some j := by
    apply findCurrentIdx_of
    · rw [hlen1]
      exact hj
    · rw [hM1j]
      exact List.mem_append_right _ (List.mem_singleton_self pid)
    · intro k hk
      rcases eq_or_ne k i with rfl | hki
      · rw [hM1i]
        exact hApid
      · rw [hM1k k hki (Nat.ne_of_lt hk)]
        exact hnotin k (Nat.lt_trans hk hj) hki
  have hname2 : pyLower ((kindList (moveWithCurrent d kind j i p pid) kind).getD j
        dRoom).name ≠
      pyLower ((kindList (moveWithCurrent d kind j i p pid) kind).getD i
        dRoom).name := by
    rw [hM1i, hM1j]
    exact fun h => hAB h.symm
  have hsucc2 := reallocate_success_cur (moveWithCurrent d kind j i p pid) pid
    ((kindList d kind).getD i dRoom).name hp2 htA2 hfull2 hcur2 hname2
  have hklist2 := moveWithCurrent_kindList_self (moveWithCurrent d kind j i p pid)
    kind i j
    (setFieldFor (clearFieldFor p ((kindList d kind).getD i dRoom).room_type)
      ((kindList d kind).getD j dRoom).room_type) pid (Ne.symm hij)
  have hM2i : ((kindList (moveWithCurrent (moveWithCurrent d kind j i p pid) kind i j
        (setFieldFor (clearFieldFor p ((kindList d kind).getD i dRoom).room_type)
          ((kindList d kind).getD j dRoom).room_type) pid) kind).getD i
        dRoom).occupants =
      ((kindList d kind).getD i dRoom).occupants.erase pid ++ [pid] := by
    rw [hklist2]
    rw [getD_set_self _ _ _ _ (by rw [List.length_set, hlen1]; exact hi)]
    show ((kindList (moveWithCurrent d kind j i p pid) kind).getD i
      dRoom).occupants ++ [pid] = _
    rw [hM1i]
  have hM2j : ((kindList (moveWithCurrent (moveWithCurrent d kind j i p pid) kind i j
        (setFieldFor (clearFieldFor p ((kindList d kind).getD i dRoom).room_type)
          ((kindList d kind).getD j dRoom).room_type) pid) kind).getD j
        dRoom).occupants =
      ((kindList d kind).getD j dRoom).occupants := by
    rw [hklist2]
    rw [getD_set_ne _ _ _ _ _ hij,
      getD_set_self _ _ _ _ (by rw [hlen1]; exact hj)]
    show ((kindList (moveWithCurrent d kind j i p pid) kind).getD j
      dRoom).occupants.erase pid = _
    rw [hM1j]
    show (((kindList d kind).getD j dRoom).occupants ++ [pid]).erase pid = _
    rw [List.erase_append_right _ hpidB, List.erase_cons_head, List.append_nil]
  refine ⟨by rw [hsucc1], ?_, ?_, ?_, ?_, ?_⟩
  · simp only [hsucc1]
    rw [hM1i]
    exact hApid
  · simp only [hsucc1]
    rw [hM1j]
    exact List.mem_append_right _ (List.mem_singleton_self pid)
  · simp only [hsucc1, hsucc2]
  · intro x
    simp only [hsucc1, hsucc2]
    rw [hM2i]
    by_cases hx : x = pid
    · subst hx
      exact iff_of_true (List.mem_append_right _ (List.mem_singleton_self x)) hmemA
    · constructor
      · intro hm
        rcases List.mem_append.mp hm with hm | hm
        · exact List.mem_of_mem_erase hm
        · exact absurd (List.mem_singleton.mp hm) hx
      · intro hm
        exact List.mem_append_left _ ((List.mem_erase_of_ne hx).mpr hm)
  · intro x
    simp only [hsucc1, hsucc2]
    rw [hM2j]

/-- Witness for C9: Ann moves from "Blue" to "Red" and back; both offices
end with their original occupants. -/
theorem claim_C9_witness :
    (reallocate_person dState1 "id1" "Red").1 = true ∧
    "id1" ∉ ((kindList (reallocate_person dState1 "id1" "Red").2
      RoomKind.office).getD 0 dRoom).occupants ∧
    "id1" ∈ ((kindList (reallocate_person dState1 "id1" "Red").2
      RoomKind.office).getD 1 dRoom).occupants ∧
    (reallocate_person (reallocate_person dState1 "id1" "Red").2 "id1"
      "Blue").1 = true ∧
    (∀ x, x ∈ ((kindList (reallocate_person
        (reallocate_person dState1 "id1" "Red").2 "id1" "Blue").2
        RoomKind.office).getD 0 dRoom).occupants ↔
      x ∈ ((kindList dState1 RoomKind.office).getD 0 dRoom).occupants) ∧
    (∀ x, x ∈ ((kindList (reallocate_person
        (reallocate_person dState1 "id1" "Red").2 "id1" "Blue").2
        RoomKind.office).getD 1 dRoom).occupants ↔
      x ∈ ((kindList dState1 RoomKind.office).getD 1 dRoom).occupants) := by
  have h := claim_C9_roundtrip dState1 RoomKind.office "id1"
    ⟨"Ann", "id1", "FELLOW", false, .name "Blue", .nil⟩ 0 1
    (by decide) (by decide) (by decide) (by decide) (by decide) (by decide)
    (by decide) (by decide) (by decide) (by decide) (by decide)
  have hB : ((kindList dState1 RoomKind.office).getD 1 dRoom).name = "Red" := by
    decide
  have hA : ((kindList dState1 RoomKind.office).getD 0 dRoom).name = "Blue" := by
    decide
  rw [hB, hA] at h
  exact h
